import Mathlib

/-!
# Verification of the taper-schedule generation engine

Shallow embedding of the plan-generation engine of this repository
(`generateTaperPhases.ts`: `generateUnifiedTaperPhases`,
`findConstrainedOptimalPath`, `analyzeConstraintStatus`) and proofs about it.

Modeling conventions:
* JS numbers are modeled as exact rationals (`ℚ`).  `NaN`/`Infinity`
  corner semantics of IEEE doubles are outside the model.
* `parseFloat(x.toFixed(3))` is modeled as rounding to 3 decimals with ties
  toward `+∞` (the ECMAScript `toFixed` tie rule; exact for the dose grid
  values arising here).
* JS numeric truthiness (`undefined` and `0` falsy, negative numbers truthy)
  is modeled explicitly by `numTruthy`/`jsOr`.
* `Array.prototype.sort` (stable in JS) is modeled by a stable bottom-up
  merge sort; a stable sort under a total boolean preorder is unique as a
  function, so the implementation choice is immaterial.
* JS `while`/`for` loops whose progress variable is an incremented counter
  bounded by a rational are modeled by fuel recursion with fuel provably
  at least the possible iteration count, so the fuel never runs out.
-/

set_option maxRecDepth 1000000
set_option maxHeartbeats 4000000

namespace TaperTracker

/-- JS `parseFloat(x.toFixed(3))`: round to 3 decimals, ties toward `+∞`. -/
def round3 (q : ℚ) : ℚ := ((⌊q * 1000 + 1/2⌋ : ℤ) : ℚ) / 1000

/-- JS truthiness filter for an optional number: `undefined` and `0` are falsy. -/
def numTruthy : Option ℚ → Option ℚ
  | none => none
  | some v => if v = 0 then none else some v

/-- JS `x || d` for an optional number `x` and default `d`. -/
def jsOr (o : Option ℚ) (d : ℚ) : ℚ := (numTruthy o).getD d

/-- Iteration count of JS `for (i = 0; i <= bound; i++)` (with `i` starting at 0). -/
def loopCount (bound : ℚ) : ℕ := if bound < 0 then 0 else (⌊bound⌋ + 1).toNat

/-- The values taken by the counter of JS `for (i = 0; i <= bound; i++)`. -/
def natsTo (bound : ℚ) : List ℚ := (List.range (loopCount bound)).map (fun k => (k : ℚ))

/-- The values taken by the counter of JS `for (x = lo; x <= hi; x++)`. -/
def qRange (lo hi : ℚ) : List ℚ := (List.range (loopCount (hi - lo))).map (fun k => lo + (k : ℚ))

/-- `x.toFixed(d)` rendered as a string (round to `d` decimals, ties toward `+∞`). -/
def toFixed (digits : ℕ) (q : ℚ) : String :=
  let scaled : ℤ := ⌊q * (10 : ℚ) ^ digits + 1/2⌋
  let sign := if scaled < 0 then "-" else ""
  let n := scaled.natAbs
  let intPart := n / 10 ^ digits
  let fracPart := n % 10 ^ digits
  let fracStr := toString fracPart
  let pad := String.mk (List.replicate (digits - fracStr.length) '0')
  sign ++ toString intPart ++ "." ++ pad ++ fracStr

/-- Rendering of a raw JS number in a template literal (`${x}`).  The exact
decimal text JS produces is irrelevant to every claim (no claim inspects the
numeric part of a message), so a simple exact rendering is used. -/
def qRepr (q : ℚ) : String :=
  if q.den = 1 then toString q.num else toString q.num ++ "/" ++ toString q.den

/-- `interface TaperPhase` of the source. -/
structure TaperPhase where
  phase : ℕ
  fullPills : ℚ
  halfPills : ℚ
  totalPills : ℚ
  avgDailyDose : ℚ
  cycleLength : ℚ
  isCurrent : Bool
deriving DecidableEq, Repr

/-- `interface ConstraintStatus` of the source. -/
structure ConstraintStatus where
  respected : List String
  violated : List String
  warnings : List String
  reasoning : List String
deriving DecidableEq, Repr

/-- `interface TaperResult` of the source. -/
structure TaperResult where
  phases : List TaperPhase
  constraintStatus : ConstraintStatus
deriving DecidableEq, Repr

/-- `Omit<TaperPhase, "phase" | "isCurrent">`: a pill combination. -/
structure Combo where
  fullPills : ℚ
  halfPills : ℚ
  totalPills : ℚ
  avgDailyDose : ℚ
  cycleLength : ℚ
deriving DecidableEq, Repr

instance : Inhabited Combo := ⟨⟨0, 0, 0, 0, 0⟩⟩

/-- An optional `{min?, max?}` bound pair. -/
structure CRange where
  lo : Option ℚ
  hi : Option ℚ
deriving DecidableEq, Repr

/-- `interface UnifiedTaperInput` of the source. -/
structure UnifiedTaperInput where
  currentAvgDose : ℚ
  goalAvgDose : ℚ
  stepSizeRange : Option CRange := none
  cycleLengthRange : Option CRange := none
  stepsRange : Option CRange := none
  durationRange : Option CRange := none
deriving DecidableEq, Repr

/-- `range?.min` (optional chaining). -/
def rMin : Option CRange → Option ℚ
  | none => none
  | some r => r.lo

/-- `range?.max` (optional chaining). -/
def rMax : Option CRange → Option ℚ
  | none => none
  | some r => r.hi

/-- The normalized constraint record built by `generateUnifiedTaperPhases`. -/
structure Constraints where
  minStepSize : ℚ
  maxStepSize : ℚ
  minCycleLength : ℚ
  maxCycleLength : ℚ
  minSteps : ℚ
  maxSteps : ℚ
  minDuration : ℚ
  maxDuration : ℚ
deriving DecidableEq, Repr

/-- The `originalConstraints` argument threaded to `analyzeConstraintStatus`. -/
structure OrigRanges where
  stepSizeRange : Option CRange
  cycleLengthRange : Option CRange
  stepsRange : Option CRange
  durationRange : Option CRange
deriving DecidableEq, Repr

/-! ### Stable sort (model of JS stable `Array.prototype.sort`) -/

/-- Stable merge of two lists, taking from the left when `le` holds;
`fuel ≥ xs.length + ys.length` makes it a complete merge. -/
def mergeF (le : Combo → Combo → Bool) : ℕ → List Combo → List Combo → List Combo
  | 0, xs, ys => xs ++ ys
  | _ + 1, [], ys => ys
  | _ + 1, x :: xs, [] => x :: xs
  | fuel + 1, x :: xs, y :: ys =>
    if le x y then x :: mergeF le fuel xs (y :: ys) else y :: mergeF le fuel (x :: xs) ys

/-- One bottom-up round: merge adjacent pairs of runs (contiguous, hence stable). -/
def mergePairs (le : Combo → Combo → Bool) (fuel : ℕ) : List (List Combo) → List (List Combo)
  | a :: b :: rest => mergeF le fuel a b :: mergePairs le fuel rest
  | ls => ls

/-- Bottom-up merge sort rounds; `rounds` larger than `log₂` of the run count
completes the sort. -/
def msortRounds (le : Combo → Combo → Bool) (fuel : ℕ) : ℕ → List (List Combo) → List Combo
  | _, [] => []
  | _, [l] => l
  | 0, ls => ls.flatten
  | rounds + 1, ls => msortRounds le fuel rounds (mergePairs le fuel ls)

/-- Stable sort of `l` by `le`; complete whenever `fuel ≥ l.length`. -/
def stableSortBy (le : Combo → Combo → Bool) (fuel : ℕ) (l : List Combo) : List Combo :=
  msortRounds le fuel fuel (l.map (fun x => [x]))

/-- `combinations.sort((a, b) => b.avgDailyDose - a.avgDailyDose)`:
stable sort descending by `avgDailyDose`. -/
def sortByDoseDesc (fuel : ℕ) (l : List Combo) : List Combo :=
  stableSortBy (fun a b => decide (b.avgDailyDose ≤ a.avgDailyDose)) fuel l

/-! ### Combination space generation (inside `generateUnifiedTaperPhases`) -/

/-- The (unsorted) combination list generated by `generateUnifiedTaperPhases`:
all `(cycle, full, half)` triples within the constraint bounds whose rounded
average daily dose lies in `[goalDose, currentDose]`. -/
def generateCombos (currentDose goalDose : ℚ) (c : Constraints) : List Combo :=
  let maxPillsNeeded : ℚ := ((⌈currentDose * c.maxCycleLength⌉ : ℤ) : ℚ)
  (qRange c.minCycleLength c.maxCycleLength).flatMap fun cycle =>
    let maxFullPillsForCycle := min maxPillsNeeded (cycle * 3)
    (natsTo maxFullPillsForCycle).flatMap fun full =>
      (natsTo (min (maxPillsNeeded - full) cycle)).filterMap fun half =>
        let totalPills := full + (1/2) * half
        let avgDailyDose := round3 (totalPills / cycle)
        if goalDose ≤ avgDailyDose ∧ avgDailyDose ≤ currentDose then
          some ⟨full, half, totalPills, avgDailyDose, cycle⟩
        else none

/-- Fuel certainly at least the length of `generateCombos`' output (product of
loop iteration counts), computed without traversing the list. -/
def combosFuel (currentDose : ℚ) (c : Constraints) : ℕ :=
  let maxPillsNeeded : ℚ := ((⌈currentDose * c.maxCycleLength⌉ : ℤ) : ℚ)
  loopCount (c.maxCycleLength - c.minCycleLength) *
    (loopCount maxPillsNeeded + 1) * (loopCount maxPillsNeeded + 1)

/-! ### Greedy path builder (`findConstrainedOptimalPath`, main loop) -/

/-- The candidate filter of the greedy loop: all four `continue` conditions. -/
def comboAdmissible (c : Constraints) (currentDose totalDuration : ℚ)
    (path : List Combo) (combo : Combo) : Bool :=
  let stepSize := currentDose - combo.avgDailyDose
  ¬(stepSize ≤ 0 ∨ stepSize < c.minStepSize ∨ stepSize > c.maxStepSize) ∧
  ¬(combo.cycleLength < c.minCycleLength ∨ combo.cycleLength > c.maxCycleLength) ∧
  ¬(totalDuration + combo.cycleLength > c.maxDuration) ∧
  ¬(path.any fun p =>
      p.avgDailyDose = combo.avgDailyDose ∧ p.cycleLength = combo.cycleLength ∧
      p.fullPills = combo.fullPills ∧ p.halfPills = combo.halfPills)

/-- The weighted smoothness score of a candidate in the greedy loop. -/
def comboScore (c : Constraints) (startDose goalDose idealStepSize currentDose totalDuration : ℚ)
    (stepCount : ℕ) (path : List Combo) (combo : Combo) : ℚ :=
  let stepSize := currentDose - combo.avgDailyDose
  let stepSizeScore := |stepSize - idealStepSize|
  let stepConsistencyScore :=
    match path.getLast? with
    | none => 0
    | some lastC =>
      let prevStepSize :=
        match path.dropLast.getLast? with
        | some prev2 => prev2.avgDailyDose - lastC.avgDailyDose
        | none => startDose - lastC.avgDailyDose
      |stepSize - prevStepSize|
  let cycleLengthConsistencyScore :=
    match path.getLast? with
    | none => 0
    | some lastC => |combo.cycleLength - lastC.cycleLength|
  let remainingDose := combo.avgDailyDose - goalDose
  let remainingSteps := c.maxSteps - (stepCount : ℚ) - 1
  let remainingDuration := c.maxDuration - totalDuration - combo.cycleLength
  let feasibilityScore :=
    if 0 < remainingSteps ∧ 0 < remainingDuration then
      |remainingDose / remainingSteps - idealStepSize|
    else if c.minStepSize < remainingDose then 1000 else 0
  let remainingDurationNeeded := c.minDuration - totalDuration - combo.cycleLength
  let remainingStepsAvailable := c.maxSteps - (stepCount : ℚ) - 1
  let cycleLengthScore :=
    if 0 < remainingDurationNeeded ∧ 0 < remainingStepsAvailable then
      |combo.cycleLength - min (remainingDurationNeeded / remainingStepsAvailable) c.maxCycleLength|
    else
      |combo.cycleLength - (match path.getLast? with | some lastC => lastC.cycleLength | none => 14)|
  stepSizeScore * 1 + stepConsistencyScore * 2 + cycleLengthConsistencyScore * (3/2) +
    feasibilityScore * (4/5) + cycleLengthScore * (1/2)

/-- The inner `for (const combo of combinations)` selection: first candidate
attaining the strictly smallest score (ties keep the earlier combo). -/
def findBestNext (combos : List Combo) (c : Constraints)
    (startDose goalDose idealStepSize currentDose totalDuration : ℚ)
    (stepCount : ℕ) (path : List Combo) : Option Combo :=
  (combos.foldl
    (fun best combo =>
      if comboAdmissible c currentDose totalDuration path combo then
        let s := comboScore c startDose goalDose idealStepSize currentDose totalDuration
          stepCount path combo
        match best with
        | none => some (combo, s)
        | some (b, bs) => if s < bs then some (combo, s) else some (b, bs)
      else best)
    none).map Prod.fst

/-- State of the greedy `while` loop. -/
structure GreedyState where
  path : List Combo
  currentDose : ℚ
  totalDuration : ℚ
  stepCount : ℕ
deriving DecidableEq, Repr

/-- The greedy `while` loop of `findConstrainedOptimalPath`.  Each iteration
requires `stepCount < maxSteps` and increments `stepCount`, so fuel
`loopCount maxSteps + 1` never runs out. -/
def greedyLoop (combos : List Combo) (c : Constraints)
    (startDose goalDose idealStepSize : ℚ) : ℕ → GreedyState → GreedyState
  | 0, s => s
  | fuel + 1, s =>
    if goalDose + c.minStepSize < s.currentDose ∧ s.totalDuration < c.maxDuration ∧
        (s.stepCount : ℚ) < c.maxSteps then
      match findBestNext combos c startDose goalDose idealStepSize s.currentDose
          s.totalDuration s.stepCount s.path with
      | none => s
      | some b =>
        greedyLoop combos c startDose goalDose idealStepSize fuel
          { path := s.path ++ [b]
            currentDose := b.avgDailyDose
            totalDuration := s.totalDuration + b.cycleLength
            stepCount := s.stepCount + 1 }
    else s

/-! ### Duration reconciler (`findConstrainedOptimalPath`, first repair pass) -/

/-- State of the duration-reconciler rebuild walk. -/
structure DurState where
  newPath : List Combo
  newTotalDuration : ℚ
  newStepCount : ℕ
  extraPhasesUsed : ℕ
deriving DecidableEq, Repr

/-- The matching combinations for a stabilization repeat of `phase`. -/
def matchingCombos (combos : List Combo) (phase : Combo) : List Combo :=
  combos.filter fun x => |x.avgDailyDose - phase.avgDailyDose| ≤ 1/1000

/-- `matching.reduce(...)`: the first element minimizing cycle-length deviation
from `prevCycleLength`. -/
def bestMatching (prevCycleLength : ℚ) (m0 : Combo) (ms : List Combo) : Combo :=
  ms.foldl
    (fun best cur =>
      if |cur.cycleLength - prevCycleLength| < |best.cycleLength - prevCycleLength| then cur
      else best)
    m0

/-- The rebuild walk of the duration reconciler (`for (i = 0; i < path.length
&& newStepCount < maxSteps; i++) { ... }`), recursing on the unwalked suffix;
`rest ≠ []` is the source's `i < path.length - 1`. -/
def durWalk (combos : List Combo) (c : Constraints) (maxExtraPhases targetDuration : ℚ) :
    List Combo → DurState → DurState
  | [], s => s
  | currentPhase :: rest, s =>
    if (s.newStepCount : ℚ) < c.maxSteps then
      let s1 : DurState :=
        { s with newPath := s.newPath ++ [currentPhase]
                 newTotalDuration := s.newTotalDuration + currentPhase.cycleLength
                 newStepCount := s.newStepCount + 1 }
      let shouldRepeat :=
        (s1.extraPhasesUsed : ℚ) < maxExtraPhases ∧ rest ≠ [] ∧
        (s1.newStepCount : ℚ) < c.maxSteps ∧
        s1.newTotalDuration + currentPhase.cycleLength ≤ c.maxDuration
      let s2 : DurState :=
        if shouldRepeat then
          match matchingCombos combos currentPhase with
          | [] => s1
          | m0 :: ms =>
            let best := bestMatching currentPhase.cycleLength m0 ms
            { s1 with newPath := s1.newPath ++ [best]
                      newTotalDuration := s1.newTotalDuration + best.cycleLength
                      newStepCount := s1.newStepCount + 1
                      extraPhasesUsed := s1.extraPhasesUsed + 1 }
        else s1
      if targetDuration ≤ s2.newTotalDuration then s2
      else durWalk combos c maxExtraPhases targetDuration rest s2
    else s

/-- Appending the remaining original phases after the rebuild walk. -/
def appendRemaining (c : Constraints) : List Combo → DurState → DurState
  | [], s => s
  | phase :: rest, s =>
    if c.maxSteps ≤ (s.newStepCount : ℚ) ∨ c.maxDuration < s.newTotalDuration + phase.cycleLength
    then s
    else
      appendRemaining c rest
        { s with newPath := s.newPath ++ [phase]
                 newTotalDuration := s.newTotalDuration + phase.cycleLength
                 newStepCount := s.newStepCount + 1 }

/-- The duration reconciler: if the realized duration undershoots `minDuration`,
rebuild the path inserting stabilization repeats. -/
def durationReconcile (combos : List Combo) (c : Constraints)
    (st : List Combo × ℚ × ℕ) : List Combo × ℚ × ℕ :=
  let path := st.1
  let totalDuration := st.2.1
  let stepCount := st.2.2
  if totalDuration < c.minDuration ∧ path ≠ [] then
    let targetDuration := c.minDuration
    let extraTimeNeeded := targetDuration - totalDuration
    let maxExtraPhases : ℚ :=
      min ((⌊extraTimeNeeded / 14⌋ : ℤ) : ℚ) (c.maxSteps - (stepCount : ℚ))
    if 0 < maxExtraPhases then
      let s := durWalk combos c maxExtraPhases targetDuration path ⟨[], 0, 0, 0⟩
      let remaining := path.drop (s.newPath.length - s.extraPhasesUsed)
      let s' := appendRemaining c remaining s
      (s'.newPath, s'.newTotalDuration, s'.newStepCount)
    else (path, totalDuration, stepCount)
  else (path, totalDuration, stepCount)

/-! ### Step-count reconciler (`findConstrainedOptimalPath`, second repair pass) -/

/-- Scan for the largest single dose drop that is at least twice `minStepSize`
(`largestStepIndex`, `-1` sentinel modeled by `Option`). -/
def largestSplit (c : Constraints) (startDose : ℚ) (path : List Combo) : Option ℕ :=
  (path.foldl
    (fun (acc : Option ℕ × ℚ × ℚ × ℕ) p =>
      let bestIdx := acc.1
      let bestSize := acc.2.1
      let prevDose := acc.2.2.1
      let i := acc.2.2.2
      let stepSize := prevDose - p.avgDailyDose
      let next :=
        if bestSize < stepSize ∧ c.minStepSize * 2 < stepSize then (some i, stepSize)
        else (bestIdx, bestSize)
      (next.1, next.2, p.avgDailyDose, i + 1))
    (none, 0, startDose, 0)).1

/-- Search for the combination closest to the intermediate dose that splits the
largest step into two admissible half-steps. -/
def findBestIntermediate (combos : List Combo) (c : Constraints)
    (prevDose currentDose target : ℚ) : Option Combo :=
  (combos.foldl
    (fun (best : Option (Combo × ℚ)) combo =>
      let diff := |combo.avgDailyDose - target|
      let stepSize1 := prevDose - combo.avgDailyDose
      let stepSize2 := combo.avgDailyDose - currentDose
      let diffImproves := match best with | none => true | some (_, bd) => decide (diff < bd)
      if c.minStepSize ≤ stepSize1 ∧ stepSize1 ≤ c.maxStepSize ∧
          c.minStepSize ≤ stepSize2 ∧ stepSize2 ≤ c.maxStepSize ∧
          c.minCycleLength ≤ combo.cycleLength ∧ combo.cycleLength ≤ c.maxCycleLength ∧
          diffImproves = true then
        some (combo, diff)
      else best)
    none).map Prod.fst

/-- The `while` loop of the step-count reconciler.  Each iteration requires
`stepCount < targetSteps ≤ minSteps` and increments `stepCount`, so fuel
`loopCount minSteps + 1` never runs out. -/
def stepCountLoop (combos : List Combo) (c : Constraints) (startDose targetSteps : ℚ) :
    ℕ → List Combo × ℚ × ℕ → List Combo × ℚ × ℕ
  | 0, st => st
  | fuel + 1, (path, totalDuration, stepCount) =>
    if (stepCount : ℚ) < targetSteps ∧ totalDuration < c.maxDuration ∧
        (stepCount : ℚ) < c.maxSteps then
      match largestSplit c startDose path with
      | none => (path, totalDuration, stepCount)
      | some largestStepIndex =>
        let prevDose_split :=
          if largestStepIndex = 0 then startDose
          else (path.getD (largestStepIndex - 1) default).avgDailyDose
        let currentDose_split := (path.getD largestStepIndex default).avgDailyDose
        let intermediateDose := (prevDose_split + currentDose_split) / 2
        match findBestIntermediate combos c prevDose_split currentDose_split intermediateDose with
        | some bestIntermediate =>
          if totalDuration + bestIntermediate.cycleLength ≤ c.maxDuration then
            stepCountLoop combos c startDose targetSteps fuel
              (path.take largestStepIndex ++ bestIntermediate :: path.drop largestStepIndex,
                totalDuration + bestIntermediate.cycleLength, stepCount + 1)
          else (path, totalDuration, stepCount)
        | none => (path, totalDuration, stepCount)
    else (path, totalDuration, stepCount)

/-- The step-count reconciler: if the path has fewer phases than `minSteps`,
repeatedly split the largest step via an intermediate combination. -/
def stepCountReconcile (combos : List Combo) (c : Constraints) (startDose : ℚ)
    (st : List Combo × ℚ × ℕ) : List Combo × ℚ × ℕ :=
  if (st.2.2 : ℚ) < c.minSteps ∧ st.1 ≠ [] then
    let targetSteps := min c.minSteps c.maxSteps
    stepCountLoop combos c startDose targetSteps (loopCount c.minSteps + 1) st
  else st

/-! ### Constraint status reporter (`analyzeConstraintStatus`) -/

def minStepRespMsg (actual : ℚ) (bound : ℚ) : String :=
  "Minimum step size: " ++ toFixed 3 actual ++ "mg ≥ " ++ qRepr bound ++ "mg"

def minStepViolMsg (actual : ℚ) (bound : ℚ) : String :=
  "Minimum step size: " ++ toFixed 3 actual ++ "mg < " ++ qRepr bound ++ "mg"

def maxStepRespMsg (actual : ℚ) (bound : ℚ) : String :=
  "Maximum step size: " ++ toFixed 3 actual ++ "mg ≤ " ++ qRepr bound ++ "mg"

def maxStepViolMsg (actual : ℚ) (bound : ℚ) : String :=
  "Maximum step size: " ++ toFixed 3 actual ++ "mg > " ++ qRepr bound ++ "mg"

def minCycleRespMsg (actual : ℚ) (bound : ℚ) : String :=
  "Minimum cycle length: " ++ qRepr actual ++ " days ≥ " ++ qRepr bound ++ " days"

def minCycleViolMsg (actual : ℚ) (bound : ℚ) : String :=
  "Minimum cycle length: " ++ qRepr actual ++ " days < " ++ qRepr bound ++ " days"

def maxCycleRespMsg (actual : ℚ) (bound : ℚ) : String :=
  "Maximum cycle length: " ++ qRepr actual ++ " days ≤ " ++ qRepr bound ++ " days"

def maxCycleViolMsg (actual : ℚ) (bound : ℚ) : String :=
  "Maximum cycle length: " ++ qRepr actual ++ " days > " ++ qRepr bound ++ " days"

def minStepsRespMsg (actual : ℕ) (bound : ℚ) : String :=
  "Minimum steps: " ++ toString actual ++ " ≥ " ++ qRepr bound

def minStepsViolMsg (actual : ℕ) (bound : ℚ) : String :=
  "Minimum steps: " ++ toString actual ++ " < " ++ qRepr bound

def minStepsReasonMsg (bound : ℚ) : String :=
  "Could not create " ++ qRepr bound ++ " steps while respecting other constraints"

def maxStepsRespMsg (actual : ℕ) (bound : ℚ) : String :=
  "Maximum steps: " ++ toString actual ++ " ≤ " ++ qRepr bound

def maxStepsViolMsg (actual : ℕ) (bound : ℚ) : String :=
  "Maximum steps: " ++ toString actual ++ " > " ++ qRepr bound

def maxStepsReasonMsg : String :=
  "Exceeded maximum steps to meet minimum duration requirement"

def minDurRespMsg (actual : ℚ) (bound : ℚ) : String :=
  "Minimum duration: " ++ qRepr actual ++ " days ≥ " ++ qRepr bound ++ " days"

def minDurViolMsg (actual : ℚ) (bound : ℚ) : String :=
  "Minimum duration: " ++ qRepr actual ++ " days < " ++ qRepr bound ++ " days"

def minDurReasonStepsMsg (bound : ℚ) : String :=
  "Could not meet minimum duration due to maximum steps constraint (" ++ qRepr bound ++ " steps)"

def minDurReasonCombosMsg : String :=
  "Could not meet minimum duration with available pill combinations"

def maxDurRespMsg (actual : ℚ) (bound : ℚ) : String :=
  "Maximum duration: " ++ qRepr actual ++ " days ≤ " ++ qRepr bound ++ " days"

def maxDurViolMsg (actual : ℚ) (bound : ℚ) : String :=
  "Maximum duration: " ++ qRepr actual ++ " days > " ++ qRepr bound ++ " days"

def generalWarningMsg : String :=
  "Some constraints could not be satisfied due to mathematical limitations or conflicts between constraints."

def generalReasonMsg : String :=
  "The algorithm prioritizes maximum constraints (hard limits) over minimum constraints when conflicts occur."

/-- Minimum of a nonempty list given as head and tail (JS `Math.min(...l)`). -/
def minList (q0 : ℚ) (l : List ℚ) : ℚ := l.foldl min q0

/-- Maximum of a nonempty list given as head and tail (JS `Math.max(...l)`). -/
def maxList (q0 : ℚ) (l : List ℚ) : ℚ := l.foldl max q0

/-- The `stepSizeRange` block of `analyzeConstraintStatus`. -/
def stepSizeBlock (r : Option CRange) (minActualStepSize maxActualStepSize : ℚ)
    (st : ConstraintStatus) : ConstraintStatus :=
  match r with
  | none => st
  | some _ =>
    let st :=
      match numTruthy (rMin r) with
      | none => st
      | some v =>
        if v - 1/1000 ≤ minActualStepSize then
          { st with respected := st.respected ++ [minStepRespMsg minActualStepSize v] }
        else { st with violated := st.violated ++ [minStepViolMsg minActualStepSize v] }
    match numTruthy (rMax r) with
    | none => st
    | some v =>
      if maxActualStepSize ≤ v + 1/1000 then
        { st with respected := st.respected ++ [maxStepRespMsg maxActualStepSize v] }
      else { st with violated := st.violated ++ [maxStepViolMsg maxActualStepSize v] }

/-- The `cycleLengthRange` block of `analyzeConstraintStatus`. -/
def cycleLengthBlock (r : Option CRange) (minActualCycleLength maxActualCycleLength : ℚ)
    (st : ConstraintStatus) : ConstraintStatus :=
  match r with
  | none => st
  | some _ =>
    let st :=
      match numTruthy (rMin r) with
      | none => st
      | some v =>
        if v ≤ minActualCycleLength then
          { st with respected := st.respected ++ [minCycleRespMsg minActualCycleLength v] }
        else { st with violated := st.violated ++ [minCycleViolMsg minActualCycleLength v] }
    match numTruthy (rMax r) with
    | none => st
    | some v =>
      if maxActualCycleLength ≤ v then
        { st with respected := st.respected ++ [maxCycleRespMsg maxActualCycleLength v] }
      else { st with violated := st.violated ++ [maxCycleViolMsg maxActualCycleLength v] }

/-- The `stepsRange` block of `analyzeConstraintStatus`. -/
def stepsBlock (r : Option CRange) (nPhases : ℕ) (st : ConstraintStatus) : ConstraintStatus :=
  match r with
  | none => st
  | some _ =>
    let st :=
      match numTruthy (rMin r) with
      | none => st
      | some v =>
        if v ≤ (nPhases : ℚ) then
          { st with respected := st.respected ++ [minStepsRespMsg nPhases v] }
        else
          { st with violated := st.violated ++ [minStepsViolMsg nPhases v]
                    reasoning := st.reasoning ++ [minStepsReasonMsg v] }
    match numTruthy (rMax r) with
    | none => st
    | some v =>
      if (nPhases : ℚ) ≤ v then
        { st with respected := st.respected ++ [maxStepsRespMsg nPhases v] }
      else
        { st with violated := st.violated ++ [maxStepsViolMsg nPhases v]
                  reasoning := st.reasoning ++ [maxStepsReasonMsg] }

/-- The `durationRange` block of `analyzeConstraintStatus` (its min-violated
reasoning also consults `stepsRange?.max`). -/
def durationBlock (r stepsR : Option CRange) (totalDuration : ℚ) (nPhases : ℕ)
    (st : ConstraintStatus) : ConstraintStatus :=
  match r with
  | none => st
  | some _ =>
    let st :=
      match numTruthy (rMin r) with
      | none => st
      | some v =>
        if v ≤ totalDuration then
          { st with respected := st.respected ++ [minDurRespMsg totalDuration v] }
        else
          let reason :=
            match numTruthy (rMax stepsR) with
            | some m => if m ≤ (nPhases : ℚ) then minDurReasonStepsMsg m else minDurReasonCombosMsg
            | none => minDurReasonCombosMsg
          { st with violated := st.violated ++ [minDurViolMsg totalDuration v]
                    reasoning := st.reasoning ++ [reason] }
    match numTruthy (rMax r) with
    | none => st
    | some v =>
      if totalDuration ≤ v then
        { st with respected := st.respected ++ [maxDurRespMsg totalDuration v] }
      else { st with violated := st.violated ++ [maxDurViolMsg totalDuration v] }

/-- The closing general warning/reasoning of `analyzeConstraintStatus`. -/
def conflictNote (st : ConstraintStatus) : ConstraintStatus :=
  match st.violated with
  | [] => st
  | _ :: _ =>
    { st with warnings := st.warnings ++ [generalWarningMsg]
              reasoning := st.reasoning ++ [generalReasonMsg] }

/-- `analyzeConstraintStatus` of the source: audit the final phases against
every originally supplied bound, appending to `status`. -/
def analyzeConstraintStatus (phases : List TaperPhase) (startDose : ℚ)
    (oc : OrigRanges) (status : ConstraintStatus) : ConstraintStatus :=
  match phases with
  | [] => status
  | p0 :: prest =>
    let totalDuration := (p0 :: prest).foldl (fun sum p => sum + p.cycleLength) 0
    let stepSizes :=
      ((p0 :: prest).foldl
        (fun (acc : List ℚ × ℚ) p =>
          let stepSize := acc.2 - p.avgDailyDose
          (if 0 < stepSize then acc.1 ++ [stepSize] else acc.1, p.avgDailyDose))
        ([], startDose)).1
    let cycleLengths := prest.map (fun p => p.cycleLength)
    let minActualStepSize := match stepSizes with | [] => 0 | s0 :: srest => minList s0 srest
    let maxActualStepSize := match stepSizes with | [] => 0 | s0 :: srest => maxList s0 srest
    let minActualCycleLength := minList p0.cycleLength cycleLengths
    let maxActualCycleLength := maxList p0.cycleLength cycleLengths
    let nPhases := (p0 :: prest).length
    conflictNote
      (durationBlock oc.durationRange oc.stepsRange totalDuration nPhases
        (stepsBlock oc.stepsRange nPhases
          (cycleLengthBlock oc.cycleLengthRange minActualCycleLength maxActualCycleLength
            (stepSizeBlock oc.stepSizeRange minActualStepSize maxActualStepSize status))))

/-! ### `findConstrainedOptimalPath` and `generateUnifiedTaperPhases` -/

/-- Convert a combo path to numbered `TaperPhase`s (`phase - index + 1`). -/
def toPhases (path : List Combo) : List TaperPhase :=
  (List.range path.length).zip path |>.map fun (index, combo) =>
    { phase := index + 1
      fullPills := combo.fullPills
      halfPills := combo.halfPills
      totalPills := combo.totalPills
      avgDailyDose := combo.avgDailyDose
      cycleLength := combo.cycleLength
      isCurrent := false }

/-- `findConstrainedOptimalPath` of the source: greedy build, duration
reconciliation, step-count reconciliation, then status analysis. -/
def findConstrainedOptimalPath (combinations : List Combo) (startDose goalDose : ℚ)
    (c : Constraints) (oc : OrigRanges) : TaperResult :=
  let constraintStatus : ConstraintStatus := ⟨[], [], [], []⟩
  let totalDoseReduction := startDose - goalDose
  let idealStepSize := totalDoseReduction / ((c.minSteps + c.maxSteps) / 2)
  let g := greedyLoop combinations c startDose goalDose idealStepSize
    (loopCount c.maxSteps + 1) ⟨[], startDose, 0, 0⟩
  let st1 := durationReconcile combinations c (g.path, g.totalDuration, g.stepCount)
  let st2 := stepCountReconcile combinations c startDose st1
  let phases := toPhases st2.1
  let status := analyzeConstraintStatus phases startDose oc constraintStatus
  ⟨phases, status⟩

def startTooHighViol (cur : ℚ) : String :=
  "Starting dose too high: " ++ toFixed 2 cur ++ " pills (maximum: 2.0 pills)"

def startTooHighReason : String :=
  "Tapers starting above 2 pills per day are not supported for safety reasons."

def goalNegativeViol (goal : ℚ) : String :=
  "Goal dose cannot be negative: " ++ toFixed 2 goal ++ " pills"

def goalNegativeReason : String := "Goal dose must be 0 or positive."

def reductionSmallViol (red : ℚ) : String :=
  "Reduction too small: " ++ toFixed 2 red ++ " pills (minimum: 0.25 pills)"

def reductionSmallReason : String :=
  "Reductions smaller than 1/4 pill are not practical for tapering."

def invalidReductionViol (cur goal : ℚ) : String :=
  "Invalid reduction: current dose (" ++ toFixed 2 cur ++
    ") must be greater than goal dose (" ++ toFixed 2 goal ++ ")"

def invalidReductionReason : String :=
  "Current dose must be higher than goal dose for tapering."

/-- The `baseConstraints` record of `generateUnifiedTaperPhases`: adaptive
defaults for unset bounds, then the inverted-step-size repair. -/
def baseConstraintsOf (cur goal : ℚ) (sr cr str dr : Option CRange) : Constraints :=
  let totalReduction := cur - goal
  let defaultMinStepSize := max (5/1000) (totalReduction / 20)
  let defaultMaxStepSize := min totalReduction (max (totalReduction / 3) (2/100))
  let bc : Constraints :=
    { minStepSize := jsOr (rMin sr) defaultMinStepSize
      maxStepSize := jsOr (rMax sr) defaultMaxStepSize
      minCycleLength := jsOr (rMin cr) 7
      maxCycleLength := jsOr (rMax cr) 28
      minSteps := jsOr (rMin str) 3
      maxSteps := jsOr (rMax str) 15
      minDuration := jsOr (rMin dr) 0
      maxDuration := jsOr (rMax dr) 365 }
  if bc.maxStepSize < bc.minStepSize then
    let avgStepSize := (bc.minStepSize + bc.maxStepSize) / 2
    { bc with minStepSize := min avgStepSize (totalReduction / 10)
              maxStepSize := max avgStepSize (totalReduction / 2) }
  else bc

/-- The duration-driven cycle-length bias of `generateUnifiedTaperPhases`,
applied only when a truthy `durationRange.min` is present and
`cycleLengthRange` is absent. -/
def cycleBias (cur goal : ℚ) (dMin : ℚ) (bc : Constraints) : Constraints :=
  let totalDoseReduction := cur - goal
  let estimatedSteps : ℚ :=
    max 6 ((⌈totalDoseReduction / (bc.maxStepSize * (3/2))⌉ : ℤ) : ℚ)
  let targetCycleLength : ℚ := ((⌈dMin / estimatedSteps⌉ : ℤ) : ℚ)
  if 14 < targetCycleLength then
    let cappedTarget := min targetCycleLength bc.maxCycleLength
    let minTarget := max bc.minCycleLength (cappedTarget - 4)
    let maxTarget := min bc.maxCycleLength (cappedTarget + 2)
    if bc.minCycleLength < minTarget ∨ maxTarget < bc.maxCycleLength then
      { bc with minCycleLength := minTarget, maxCycleLength := maxTarget }
    else bc
  else bc

/-- The normalized constraints computed by `generateUnifiedTaperPhases`:
adaptive defaults, inverted-step-size repair, duration-driven cycle bias. -/
def normalizeConstraints (input : UnifiedTaperInput) : Constraints :=
  let bc := baseConstraintsOf input.currentAvgDose input.goalAvgDose
    input.stepSizeRange input.cycleLengthRange input.stepsRange input.durationRange
  match numTruthy (rMin input.durationRange), input.cycleLengthRange with
  | some dMin, none => cycleBias input.currentAvgDose input.goalAvgDose dMin bc
  | _, _ => bc

/-- `generateUnifiedTaperPhases` of the source, the single entry point. -/
def generateUnifiedTaperPhases (input : UnifiedTaperInput) : TaperResult :=
  let currentPillUnits := input.currentAvgDose
  let goalPillUnits := input.goalAvgDose
  let totalReductionPills := currentPillUnits - goalPillUnits
  if 2 < currentPillUnits then
    ⟨[], ⟨[], [startTooHighViol currentPillUnits], [], [startTooHighReason]⟩⟩
  else if goalPillUnits < 0 then
    ⟨[], ⟨[], [goalNegativeViol goalPillUnits], [], [goalNegativeReason]⟩⟩
  else if totalReductionPills < 1/4 then
    ⟨[], ⟨[], [reductionSmallViol totalReductionPills], [], [reductionSmallReason]⟩⟩
  else if totalReductionPills ≤ 0 then
    ⟨[], ⟨[], [invalidReductionViol currentPillUnits goalPillUnits], [],
      [invalidReductionReason]⟩⟩
  else
    let constraints := normalizeConstraints input
    let combinations :=
      sortByDoseDesc (combosFuel currentPillUnits constraints)
        (generateCombos currentPillUnits goalPillUnits constraints)
    findConstrainedOptimalPath combinations currentPillUnits goalPillUnits constraints
      ⟨input.stepSizeRange, input.cycleLengthRange, input.stepsRange, input.durationRange⟩

/-! ### Concrete test inputs used by the counterexamples and witnesses -/

/-- Sum of the cycle lengths of a phase list (realized total duration). -/
def sumCycles (l : List TaperPhase) : ℚ := l.foldl (fun s p => s + p.cycleLength) 0

/-- Dose sequence of a result. -/
def doseSeq (r : TaperResult) : List ℚ := r.phases.map (fun p => p.avgDailyDose)

/-- An input from the repository's own test suite (`constraint-handling.test.ts`,
"should never return empty phases without error messages"):
`{currentAvgDose: 1.0, goalAvgDose: 0.5, cycleLengthRange: {max: 1}}`. -/
def inSilent : UnifiedTaperInput :=
  { currentAvgDose := 1, goalAvgDose := 1/2, cycleLengthRange := some ⟨none, some 1⟩ }

/-- `{0.25, 0, stepSizeRange {0.07, 0.09}, cycleLengthRange {28, 28},
durationRange {98, 98}}`: duration reconciler overshoots `maxDuration`. -/
def inOvershoot : UnifiedTaperInput :=
  { currentAvgDose := 1/4, goalAvgDose := 0
    stepSizeRange := some ⟨some (7/100), some (9/100)⟩
    cycleLengthRange := some ⟨some 28, some 28⟩
    durationRange := some ⟨some 98, some 98⟩ }

/-- `{0.25, 0, stepSizeRange {0.07, 0.09}, cycleLengthRange {28, 28},
durationRange {112, 112}}`: duration reconciler drops the final greedy phase. -/
def inDropTail : UnifiedTaperInput :=
  { currentAvgDose := 1/4, goalAvgDose := 0
    stepSizeRange := some ⟨some (7/100), some (9/100)⟩
    cycleLengthRange := some ⟨some 28, some 28⟩
    durationRange := some ⟨some 112, some 112⟩ }

/-- `{0.25, 0, cycleLengthRange {}, stepsRange {max: 1}, durationRange
{min: 110}}`: explicitly empty cycle-length range. -/
def inEmptyCycle : UnifiedTaperInput :=
  { currentAvgDose := 1/4, goalAvgDose := 0
    cycleLengthRange := some ⟨none, none⟩
    stepsRange := some ⟨none, some 1⟩
    durationRange := some ⟨some 110, none⟩ }

/-- Same as `inEmptyCycle` but with the cycle-length range absent. -/
def inAbsentCycle : UnifiedTaperInput :=
  { currentAvgDose := 1/4, goalAvgDose := 0
    cycleLengthRange := none
    stepsRange := some ⟨none, some 1⟩
    durationRange := some ⟨some 110, none⟩ }

/-- The sorted combination space an input generates. -/
def combosOf (input : UnifiedTaperInput) : List Combo :=
  sortByDoseDesc (combosFuel input.currentAvgDose (normalizeConstraints input))
    (generateCombos input.currentAvgDose input.goalAvgDose (normalizeConstraints input))

/-- The greedy-built path (before the repair passes) an input generates. -/
def greedyPathOf (input : UnifiedTaperInput) : GreedyState :=
  let c := normalizeConstraints input
  greedyLoop (combosOf input) c input.currentAvgDose input.goalAvgDose
    ((input.currentAvgDose - input.goalAvgDose) / ((c.minSteps + c.maxSteps) / 2))
    (loopCount c.maxSteps + 1) ⟨[], input.currentAvgDose, 0, 0⟩

/-! ### Specification-side predicates and helper definitions used by the
theorems -/


/-- Erase explicit `0` bounds (`some 0 ↦ none`) in a range object. -/
def zeroEraseR : Option CRange → Option CRange
  | none => none
  | some r => some ⟨numTruthy r.lo, numTruthy r.hi⟩

/-- Erase every explicit `0` constraint bound of an input. -/
def zeroErase (input : UnifiedTaperInput) : UnifiedTaperInput :=
  { input with
    stepSizeRange := zeroEraseR input.stepSizeRange
    cycleLengthRange := zeroEraseR input.cycleLengthRange
    stepsRange := zeroEraseR input.stepsRange
    durationRange := zeroEraseR input.durationRange }


/-- The explicitly empty range object `{min: undefined, max: undefined}`. -/
def emptyRange : CRange := ⟨none, none⟩

/-- The disjunction of the four Bounds Validator failure conditions. -/
def validatorRejects (cur goal : ℚ) : Prop :=
  2 < cur ∨ goal < 0 ∨ cur - goal < 1/4 ∨ cur ≤ goal

instance (cur goal : ℚ) : Decidable (validatorRejects cur goal) := by
  unfold validatorRejects; infer_instance


/-- First character of a string. -/
def headChar (s : String) : Option Char := s.data.head?


/-- The fold step of `findBestNext`. -/
def bestStep (c : Constraints) (startDose goalDose idealStepSize currentDose totalDuration : ℚ)
    (stepCount : ℕ) (path : List Combo) (best : Option (Combo × ℚ)) (combo : Combo) :
    Option (Combo × ℚ) :=
  if comboAdmissible c currentDose totalDuration path combo then
    let s := comboScore c startDose goalDose idealStepSize currentDose totalDuration
      stepCount path combo
    match best with
    | none => some (combo, s)
    | some (b, bs) => if s < bs then some (combo, s) else some (b, bs)
  else best


/-- `Stuffing l r`: `r` keeps a prefix of `l` in order (the tail may be
dropped), with at most one stabilization repeat — a combo whose dose matches
the kept phase within 0.001 — optionally inserted after each kept phase. -/
inductive Stuffing : List Combo → List Combo → Prop
  | stop (l : List Combo) : Stuffing l []
  | keep {a : Combo} {t r : List Combo} : Stuffing t r → Stuffing (a :: t) (a :: r)
  | dup {a b : Combo} {t r : List Combo} :
      |b.avgDailyDose - a.avgDailyDose| ≤ 1/1000 → Stuffing t r →
      Stuffing (a :: t) (a :: b :: r)

/-- Exact stuffing: as `Stuffing` but consuming all of `l`. -/
inductive StuffExact : List Combo → List Combo → Prop
  | nil : StuffExact [] []
  | keep {a : Combo} {t r : List Combo} : StuffExact t r → StuffExact (a :: t) (a :: r)
  | dup {a b : Combo} {t r : List Combo} :
      |b.avgDailyDose - a.avgDailyDose| ≤ 1/1000 → StuffExact t r →
      StuffExact (a :: t) (a :: b :: r)


/-- Strict dose descent from starting value `d`. -/
def StrictDesc (d : ℚ) : List Combo → Prop
  | [] => True
  | x :: rest => x.avgDailyDose < d ∧ StrictDesc x.avgDailyDose rest

/-- Consecutive doses non-increasing within the reconcilers' 0.001 tolerance. -/
def TolChain : List Combo → Prop :=
  List.Chain' (fun a b => b.avgDailyDose ≤ a.avgDailyDose + 1/1000)

/-- The same tolerance chain on emitted phases. -/
def TolChainP : List TaperPhase → Prop :=
  List.Chain' (fun a b => b.avgDailyDose ≤ a.avgDailyDose + 1/1000)

/-- Every head dose (if any) is at most `d`. -/
def HeadLe (d : ℚ) (l : List Combo) : Prop :=
  ∀ x ∈ l.head?, x.avgDailyDose ≤ d

/-- The dose of the last phase of `l`, or `d` if `l` is empty. -/
def lastDose (d : ℚ) : List Combo → ℚ
  | [] => d
  | x :: rest => lastDose x.avgDailyDose rest


/-! ## Theorems -/

/-- C1: the no-silent-failure invariant fails on the code.  At the repository's
own test input `{currentAvgDose: 1, goalAvgDose: 0.5, cycleLengthRange: {max: 1}}`
(which passes dose validation), `generateUnifiedTaperPhases` returns an empty
`phases` list while `violated` and `warnings` are both empty:
`analyzeConstraintStatus` returns immediately on an empty phase list, so the
greedy search coming up empty produces a silent failure. -/
theorem c1_empty_phases_silent :
    (generateUnifiedTaperPhases inSilent).phases = [] ∧
    (generateUnifiedTaperPhases inSilent).constraintStatus.violated = [] ∧
    (generateUnifiedTaperPhases inSilent).constraintStatus.warnings = [] := by
  with_unfolding_all decide

/-- C5: the hard maximum-duration bound fails on the code.  At `inOvershoot`
(start 0.25, goal 0, steps in [0.07, 0.09], 28-day cycles, duration range
{98, 98}), the normalized `maxDuration` is 98 but the returned phases sum to
112 cycle days: the duration reconciler re-appends the remaining original
phases without re-checking `maxDuration` against the repeats it inserted. -/
theorem c5_max_duration_exceeded :
    (normalizeConstraints inOvershoot).maxDuration = 98 ∧
    sumCycles (generateUnifiedTaperPhases inOvershoot).phases = 112 ∧
    (generateUnifiedTaperPhases inOvershoot).phases ≠ [] := by
  with_unfolding_all decide

/-- C7 (counterexample): at `inDropTail` the duration reconciler triggers
(greedy duration 84 < minDuration 112, non-empty path), the greedy path ends
with dose 9/250, yet no phase of the final result carries that dose — the
reconciler dropped a dose value chosen by the greedy builder, refuting the
claim that it only adds plateaus and never removes a chosen dose. -/
theorem c7_counterexample :
    (greedyPathOf inDropTail).totalDuration = 84 ∧
    (normalizeConstraints inDropTail).minDuration = 112 ∧
    (greedyPathOf inDropTail).path.map (fun c => c.avgDailyDose) =
      [179/1000, 107/1000, 9/250] ∧
    doseSeq (generateUnifiedTaperPhases inDropTail) =
      [179/1000, 179/1000, 107/1000, 107/1000] ∧
    ¬ (9/250 : ℚ) ∈ doseSeq (generateUnifiedTaperPhases inDropTail) := by
  with_unfolding_all decide

/-- C3 (counterexample): an explicitly empty `cycleLengthRange`
(`{min: undefined, max: undefined}`) is not equivalent to omitting it when a
minimum duration is supplied: the presence test `!cycleLengthRange` in the
duration-driven cycle bias distinguishes them, and the outputs differ (the
first phase gets a 14-day cycle in one case and a 15-day cycle in the other). -/
theorem c3_counterexample :
    inEmptyCycle = { inAbsentCycle with cycleLengthRange := some ⟨none, none⟩ } ∧
    ((generateUnifiedTaperPhases inEmptyCycle).phases.map (fun p => p.cycleLength)).head? =
      some 14 ∧
    ((generateUnifiedTaperPhases inAbsentCycle).phases.map (fun p => p.cycleLength)).head? =
      some 15 ∧
    generateUnifiedTaperPhases inEmptyCycle ≠ generateUnifiedTaperPhases inAbsentCycle := by
  with_unfolding_all decide


theorem numTruthy_idem (o : Option ℚ) : numTruthy (numTruthy o) = numTruthy o := by
  cases o with
  | none => rfl
  | some v => by_cases h : v = 0 <;> simp [numTruthy, h]

theorem numTruthy_rMin_zeroEraseR (r : Option CRange) :
    numTruthy (rMin (zeroEraseR r)) = numTruthy (rMin r) := by
  cases r with
  | none => rfl
  | some rr => simp [zeroEraseR, rMin, numTruthy_idem]

theorem numTruthy_rMax_zeroEraseR (r : Option CRange) :
    numTruthy (rMax (zeroEraseR r)) = numTruthy (rMax r) := by
  cases r with
  | none => rfl
  | some rr => simp [zeroEraseR, rMax, numTruthy_idem]

theorem jsOr_rMin_zeroEraseR (r : Option CRange) (d : ℚ) :
    jsOr (rMin (zeroEraseR r)) d = jsOr (rMin r) d := by
  unfold jsOr; rw [numTruthy_rMin_zeroEraseR]

theorem jsOr_rMax_zeroEraseR (r : Option CRange) (d : ℚ) :
    jsOr (rMax (zeroEraseR r)) d = jsOr (rMax r) d := by
  unfold jsOr; rw [numTruthy_rMax_zeroEraseR]

theorem stepSizeBlock_zeroEraseR (r : Option CRange) (a b : ℚ) (st : ConstraintStatus) :
    stepSizeBlock (zeroEraseR r) a b st = stepSizeBlock r a b st := by
  cases r with
  | none => rfl
  | some rr =>
    simp only [stepSizeBlock, zeroEraseR, rMin, rMax, numTruthy_idem]

theorem cycleLengthBlock_zeroEraseR (r : Option CRange) (a b : ℚ) (st : ConstraintStatus) :
    cycleLengthBlock (zeroEraseR r) a b st = cycleLengthBlock r a b st := by
  cases r with
  | none => rfl
  | some rr =>
    simp only [cycleLengthBlock, zeroEraseR, rMin, rMax, numTruthy_idem]

theorem stepsBlock_zeroEraseR (r : Option CRange) (n : ℕ) (st : ConstraintStatus) :
    stepsBlock (zeroEraseR r) n st = stepsBlock r n st := by
  cases r with
  | none => rfl
  | some rr =>
    simp only [stepsBlock, zeroEraseR, rMin, rMax, numTruthy_idem]

theorem durationBlock_zeroEraseR (r stepsR : Option CRange) (td : ℚ) (n : ℕ)
    (st : ConstraintStatus) :
    durationBlock (zeroEraseR r) (zeroEraseR stepsR) td n st = durationBlock r stepsR td n st := by
  cases r with
  | none => rfl
  | some rr =>
    simp only [durationBlock, zeroEraseR, rMin, rMax, numTruthy_idem,
      numTruthy_rMax_zeroEraseR stepsR]
    cases stepsR with
    | none => rfl
    | some s2 => simp only [zeroEraseR, rMax, numTruthy_idem]

theorem analyze_zeroErase (ph : List TaperPhase) (sd : ℚ) (a b c d : Option CRange)
    (st : ConstraintStatus) :
    analyzeConstraintStatus ph sd ⟨zeroEraseR a, zeroEraseR b, zeroEraseR c, zeroEraseR d⟩ st =
      analyzeConstraintStatus ph sd ⟨a, b, c, d⟩ st := by
  cases ph with
  | nil => rfl
  | cons p0 prest =>
    unfold analyzeConstraintStatus
    simp only [stepSizeBlock_zeroEraseR, cycleLengthBlock_zeroEraseR, stepsBlock_zeroEraseR,
      durationBlock_zeroEraseR]

theorem findPath_zeroErase (combos : List Combo) (sd gd : ℚ) (c : Constraints)
    (a b c' d : Option CRange) :
    findConstrainedOptimalPath combos sd gd c
        ⟨zeroEraseR a, zeroEraseR b, zeroEraseR c', zeroEraseR d⟩ =
      findConstrainedOptimalPath combos sd gd c ⟨a, b, c', d⟩ := by
  simp only [findConstrainedOptimalPath]
  rw [analyze_zeroErase]

theorem baseConstraintsOf_zeroErase (cur goal : ℚ) (sr cr str dr : Option CRange) :
    baseConstraintsOf cur goal (zeroEraseR sr) (zeroEraseR cr) (zeroEraseR str) (zeroEraseR dr) =
      baseConstraintsOf cur goal sr cr str dr := by
  simp only [baseConstraintsOf, jsOr_rMin_zeroEraseR, jsOr_rMax_zeroEraseR]

theorem normalizeConstraints_zeroErase (input : UnifiedTaperInput) :
    normalizeConstraints (zeroErase input) = normalizeConstraints input := by
  cases input with
  | mk cur goal sr cr str dr =>
    simp only [normalizeConstraints, zeroErase, numTruthy_rMin_zeroEraseR,
      baseConstraintsOf_zeroErase]
    cases cr <;> cases numTruthy (rMin dr) <;> rfl

/-- C10: zero bounds behave as absent: erasing every explicit `0` constraint
bound (replacing it by `undefined`) leaves the result of
`generateUnifiedTaperPhases` unchanged; consequently any two inputs that agree
after zero-erasure — in particular an input with some bound set to `0` and the
same input with that bound left undefined — produce identical phases and
constraint status. -/
theorem c10_zero_bounds_as_absent (input₁ input₂ : UnifiedTaperInput)
    (h : zeroErase input₁ = zeroErase input₂) :
    generateUnifiedTaperPhases input₁ = generateUnifiedTaperPhases input₂ := by
  suffices key : ∀ input,
      generateUnifiedTaperPhases (zeroErase input) = generateUnifiedTaperPhases input by
    rw [← key input₁, ← key input₂, h]
  intro input
  cases input with
  | mk cur goal sr cr str dr =>
    show generateUnifiedTaperPhases
        ⟨cur, goal, zeroEraseR sr, zeroEraseR cr, zeroEraseR str, zeroEraseR dr⟩ =
      generateUnifiedTaperPhases ⟨cur, goal, sr, cr, str, dr⟩
    simp only [generateUnifiedTaperPhases]
    rw [show normalizeConstraints
          ⟨cur, goal, zeroEraseR sr, zeroEraseR cr, zeroEraseR str, zeroEraseR dr⟩ =
        normalizeConstraints ⟨cur, goal, sr, cr, str, dr⟩ from
      normalizeConstraints_zeroErase ⟨cur, goal, sr, cr, str, dr⟩]
    split
    · rfl
    · split
      · rfl
      · split
        · rfl
        · split
          · rfl
          · exact findPath_zeroErase _ _ _ _ sr cr str dr

theorem stepSizeBlock_emptyRange (a b : ℚ) (st : ConstraintStatus) :
    stepSizeBlock (some emptyRange) a b st = stepSizeBlock none a b st := rfl

theorem cycleLengthBlock_emptyRange (a b : ℚ) (st : ConstraintStatus) :
    cycleLengthBlock (some emptyRange) a b st = cycleLengthBlock none a b st := rfl

theorem stepsBlock_emptyRange (n : ℕ) (st : ConstraintStatus) :
    stepsBlock (some emptyRange) n st = stepsBlock none n st := rfl

theorem durationBlock_emptyRange (stepsR : Option CRange) (td : ℚ) (n : ℕ)
    (st : ConstraintStatus) :
    durationBlock (some emptyRange) stepsR td n st = durationBlock none stepsR td n st := rfl

theorem durationBlock_stepsR_emptyRange (r : Option CRange) (td : ℚ) (n : ℕ)
    (st : ConstraintStatus) :
    durationBlock r (some emptyRange) td n st = durationBlock r none td n st := by
  cases r <;> rfl

theorem analyze_empty_stepSize (ph : List TaperPhase) (sd : ℚ) (b c d : Option CRange)
    (st : ConstraintStatus) :
    analyzeConstraintStatus ph sd ⟨some emptyRange, b, c, d⟩ st =
      analyzeConstraintStatus ph sd ⟨none, b, c, d⟩ st := by
  cases ph with
  | nil => rfl
  | cons p0 prest =>
    unfold analyzeConstraintStatus
    simp only [stepSizeBlock_emptyRange]

theorem analyze_empty_cycle (ph : List TaperPhase) (sd : ℚ) (a c d : Option CRange)
    (st : ConstraintStatus) :
    analyzeConstraintStatus ph sd ⟨a, some emptyRange, c, d⟩ st =
      analyzeConstraintStatus ph sd ⟨a, none, c, d⟩ st := by
  cases ph with
  | nil => rfl
  | cons p0 prest =>
    unfold analyzeConstraintStatus
    simp only [cycleLengthBlock_emptyRange]

theorem analyze_empty_steps (ph : List TaperPhase) (sd : ℚ) (a b d : Option CRange)
    (st : ConstraintStatus) :
    analyzeConstraintStatus ph sd ⟨a, b, some emptyRange, d⟩ st =
      analyzeConstraintStatus ph sd ⟨a, b, none, d⟩ st := by
  cases ph with
  | nil => rfl
  | cons p0 prest =>
    unfold analyzeConstraintStatus
    simp only [stepsBlock_emptyRange, durationBlock_stepsR_emptyRange]

theorem analyze_empty_duration (ph : List TaperPhase) (sd : ℚ) (a b c : Option CRange)
    (st : ConstraintStatus) :
    analyzeConstraintStatus ph sd ⟨a, b, c, some emptyRange⟩ st =
      analyzeConstraintStatus ph sd ⟨a, b, c, none⟩ st := by
  cases ph with
  | nil => rfl
  | cons p0 prest =>
    unfold analyzeConstraintStatus
    simp only [durationBlock_emptyRange]

theorem baseConstraintsOf_empty_sr (cur goal : ℚ) (cr str dr : Option CRange) :
    baseConstraintsOf cur goal (some emptyRange) cr str dr =
      baseConstraintsOf cur goal none cr str dr := rfl

theorem baseConstraintsOf_empty_cr (cur goal : ℚ) (sr str dr : Option CRange) :
    baseConstraintsOf cur goal sr (some emptyRange) str dr =
      baseConstraintsOf cur goal sr none str dr := rfl

theorem baseConstraintsOf_empty_str (cur goal : ℚ) (sr cr dr : Option CRange) :
    baseConstraintsOf cur goal sr cr (some emptyRange) dr =
      baseConstraintsOf cur goal sr cr none dr := rfl

theorem baseConstraintsOf_empty_dr (cur goal : ℚ) (sr cr str : Option CRange) :
    baseConstraintsOf cur goal sr cr str (some emptyRange) =
      baseConstraintsOf cur goal sr cr str none := rfl

/-- C3 (amended): an explicitly empty range is equivalent to an absent one for
the step-size, step-count and duration dimensions unconditionally, and for the
cycle-length dimension whenever no truthy `durationRange.min` is supplied.
(The counterexample `c3_counterexample` shows the cycle-length dimension is
NOT equivalent when a minimum duration is present, because the duration-driven
cycle bias tests the presence of `cycleLengthRange` itself.) -/
theorem c3_empty_range_equivalence :
    (∀ (cur goal : ℚ) (cr str dr : Option CRange),
      generateUnifiedTaperPhases ⟨cur, goal, some emptyRange, cr, str, dr⟩ =
        generateUnifiedTaperPhases ⟨cur, goal, none, cr, str, dr⟩) ∧
    (∀ (cur goal : ℚ) (sr cr dr : Option CRange),
      generateUnifiedTaperPhases ⟨cur, goal, sr, cr, some emptyRange, dr⟩ =
        generateUnifiedTaperPhases ⟨cur, goal, sr, cr, none, dr⟩) ∧
    (∀ (cur goal : ℚ) (sr cr str : Option CRange),
      generateUnifiedTaperPhases ⟨cur, goal, sr, cr, str, some emptyRange⟩ =
        generateUnifiedTaperPhases ⟨cur, goal, sr, cr, str, none⟩) ∧
    (∀ (cur goal : ℚ) (sr str dr : Option CRange),
      numTruthy (rMin dr) = none →
      generateUnifiedTaperPhases ⟨cur, goal, sr, some emptyRange, str, dr⟩ =
        generateUnifiedTaperPhases ⟨cur, goal, sr, none, str, dr⟩) := by
  refine ⟨?_, ?_, ?_, ?_⟩
  · intro cur goal cr str dr
    simp only [generateUnifiedTaperPhases]
    rw [show normalizeConstraints ⟨cur, goal, some emptyRange, cr, str, dr⟩ =
        normalizeConstraints ⟨cur, goal, none, cr, str, dr⟩ by
      simp only [normalizeConstraints, baseConstraintsOf_empty_sr]]
    split
    · rfl
    · split
      · rfl
      · split
        · rfl
        · split
          · rfl
          · simp only [findConstrainedOptimalPath]
            rw [analyze_empty_stepSize]
  · intro cur goal sr cr dr
    simp only [generateUnifiedTaperPhases]
    rw [show normalizeConstraints ⟨cur, goal, sr, cr, some emptyRange, dr⟩ =
        normalizeConstraints ⟨cur, goal, sr, cr, none, dr⟩ by
      simp only [normalizeConstraints, baseConstraintsOf_empty_str]]
    split
    · rfl
    · split
      · rfl
      · split
        · rfl
        · split
          · rfl
          · simp only [findConstrainedOptimalPath]
            rw [analyze_empty_steps]
  · intro cur goal sr cr str
    simp only [generateUnifiedTaperPhases]
    rw [show normalizeConstraints ⟨cur, goal, sr, cr, str, some emptyRange⟩ =
        normalizeConstraints ⟨cur, goal, sr, cr, str, none⟩ by
      simp only [normalizeConstraints, baseConstraintsOf_empty_dr]
      rfl]
    split
    · rfl
    · split
      · rfl
      · split
        · rfl
        · split
          · rfl
          · simp only [findConstrainedOptimalPath]
            rw [analyze_empty_duration]
  · intro cur goal sr str dr h
    simp only [generateUnifiedTaperPhases]
    rw [show normalizeConstraints ⟨cur, goal, sr, some emptyRange, str, dr⟩ =
        normalizeConstraints ⟨cur, goal, sr, none, str, dr⟩ by
      simp only [normalizeConstraints, baseConstraintsOf_empty_cr, h]]
    split
    · rfl
    · split
      · rfl
      · split
        · rfl
        · split
          · rfl
          · simp only [findConstrainedOptimalPath]
            rw [analyze_empty_cycle]

/-- Witness for `c3_empty_range_equivalence`: its cycle-length part applied at
a concrete input with no duration minimum. -/
theorem c3_empty_range_equivalence_witness :
    generateUnifiedTaperPhases ⟨3, 0, none, some emptyRange, none, none⟩ =
      generateUnifiedTaperPhases ⟨3, 0, none, none, none, none⟩ :=
  c3_empty_range_equivalence.2.2.2 3 0 none none none rfl


theorem analyze_nil (sd : ℚ) (oc : OrigRanges) (st : ConstraintStatus) :
    analyzeConstraintStatus [] sd oc st = st := rfl

theorem toPhases_length (l : List Combo) : (toPhases l).length = l.length := by
  simp [toPhases]

theorem findPath_phases_empty (combos : List Combo) (sd gd : ℚ) (c : Constraints)
    (oc : OrigRanges) :
    (findConstrainedOptimalPath combos sd gd c oc).phases = [] →
    (findConstrainedOptimalPath combos sd gd c oc).constraintStatus =
      ⟨[], [], [], []⟩ := by
  simp only [findConstrainedOptimalPath]
  generalize (stepCountReconcile combos c sd
    (durationReconcile combos c
      ((greedyLoop combos c sd gd ((sd - gd) / ((c.minSteps + c.maxSteps) / 2))
          (loopCount c.maxSteps + 1) ⟨[], sd, 0, 0⟩).path,
        (greedyLoop combos c sd gd ((sd - gd) / ((c.minSteps + c.maxSteps) / 2))
          (loopCount c.maxSteps + 1) ⟨[], sd, 0, 0⟩).totalDuration,
        (greedyLoop combos c sd gd ((sd - gd) / ((c.minSteps + c.maxSteps) / 2))
          (loopCount c.maxSteps + 1) ⟨[], sd, 0, 0⟩).stepCount))).1 = pp
  intro h
  cases pp with
  | nil => rfl
  | cons x xs =>
    exfalso
    have := congrArg List.length h
    rw [toPhases_length] at this
    simp at this

/-- C4: the Bounds Validator.  (1) `generateUnifiedTaperPhases` returns an
empty phase list together with a violation exactly when `startDose > 2.0`,
`goalDose < 0`, `startDose − goalDose < 0.25`, or `startDose ≤ goalDose`;
(2) every such failure produces exactly one violation string and exactly one
reasoning string; (3) `start = 2.001` in particular is rejected with a
"Starting dose too high" violation. -/
theorem c4_bounds_validator :
    (∀ input : UnifiedTaperInput,
      (((generateUnifiedTaperPhases input).phases = [] ∧
          (generateUnifiedTaperPhases input).constraintStatus.violated ≠ []) ↔
        validatorRejects input.currentAvgDose input.goalAvgDose) ∧
      (validatorRejects input.currentAvgDose input.goalAvgDose →
        (generateUnifiedTaperPhases input).constraintStatus.violated.length = 1 ∧
        (generateUnifiedTaperPhases input).constraintStatus.reasoning.length = 1)) ∧
    ((generateUnifiedTaperPhases ⟨2001/1000, 1, none, none, none, none⟩).phases = [] ∧
      (generateUnifiedTaperPhases ⟨2001/1000, 1, none, none, none, none⟩).constraintStatus.violated
        = [startTooHighViol (2001/1000)] ∧
      (startTooHighViol (2001/1000)).startsWith "Starting dose too high" = true) := by
  constructor
  · rintro ⟨cur, goal, sr, cr, str, dr⟩
    simp only [generateUnifiedTaperPhases, validatorRejects]
    split_ifs with h1 h2 h3 h4
    · exact ⟨⟨fun _ => Or.inl h1, fun _ => ⟨rfl, by simp⟩⟩, fun _ => ⟨rfl, rfl⟩⟩
    · exact ⟨⟨fun _ => Or.inr (Or.inl h2), fun _ => ⟨rfl, by simp⟩⟩, fun _ => ⟨rfl, rfl⟩⟩
    · exact ⟨⟨fun _ => Or.inr (Or.inr (Or.inl (by linarith))), fun _ => ⟨rfl, by simp⟩⟩,
        fun _ => ⟨rfl, rfl⟩⟩
    · exact absurd (lt_of_le_of_lt h4 (by norm_num)) h3
    · constructor
      · constructor
        · rintro ⟨hp, hv⟩
          exact absurd (congrArg ConstraintStatus.violated
            (findPath_phases_empty _ _ _ _ _ hp)) hv
        · intro hr
          exfalso
          rcases hr with h | h | h | h
          · exact h1 h
          · exact h2 h
          · exact h3 h
          · exact h3 (by linarith)
      · intro hr
        exfalso
        rcases hr with h | h | h | h
        · exact h1 h
        · exact h2 h
        · exact h3 h
        · exact h3 (by linarith)
  · refine ⟨?_, ?_, ?_⟩
    · with_unfolding_all decide
    · with_unfolding_all decide
    · with_unfolding_all decide

/-- Witness for the implication part of `c4_bounds_validator`. -/
theorem c4_bounds_validator_witness :
    validatorRejects (2001/1000) 1 ∧
    (generateUnifiedTaperPhases ⟨2001/1000, 1, none, none, none, none⟩).constraintStatus.violated.length = 1 ∧
    (generateUnifiedTaperPhases ⟨2001/1000, 1, none, none, none, none⟩).constraintStatus.reasoning.length = 1 :=
  ⟨by unfold validatorRejects; norm_num,
    (c4_bounds_validator.1 ⟨2001/1000, 1, none, none, none, none⟩).2
      (by unfold validatorRejects; norm_num)⟩

theorem headChar_invalidReductionViol (c g : ℚ) :
    headChar (invalidReductionViol c g) = some 'I' := rfl

theorem headChar_startTooHighViol (c : ℚ) : headChar (startTooHighViol c) = some 'S' := rfl

theorem headChar_goalNegativeViol (g : ℚ) : headChar (goalNegativeViol g) = some 'G' := rfl

theorem headChar_reductionSmallViol (r : ℚ) : headChar (reductionSmallViol r) = some 'R' := rfl

theorem mem_violated_stepSizeBlock {s : String} (r : Option CRange) (a b : ℚ)
    (st : ConstraintStatus) (h : s ∈ (stepSizeBlock r a b st).violated) :
    s ∈ st.violated ∨ headChar s = some 'M' := by
  unfold stepSizeBlock at h
  rcases r with _ | rr
  · exact Or.inl h
  · rcases hlo : numTruthy (rMin (some rr)) with _ | v <;> rw [hlo] at h <;>
      rcases hhi : numTruthy (rMax (some rr)) with _ | w <;> rw [hhi] at h <;>
      dsimp only at h <;>
      (try split_ifs at h) <;>
      (try simp only [List.mem_append, List.mem_singleton] at h) <;>
      first
        | exact Or.inl h
        | (rcases h with h | rfl <;> first | exact Or.inl h | exact Or.inr rfl)
        | (rcases h with (h | rfl) | rfl <;> first | exact Or.inl h | exact Or.inr rfl)

theorem mem_violated_cycleLengthBlock {s : String} (r : Option CRange) (a b : ℚ)
    (st : ConstraintStatus) (h : s ∈ (cycleLengthBlock r a b st).violated) :
    s ∈ st.violated ∨ headChar s = some 'M' := by
  unfold cycleLengthBlock at h
  rcases r with _ | rr
  · exact Or.inl h
  · rcases hlo : numTruthy (rMin (some rr)) with _ | v <;> rw [hlo] at h <;>
      rcases hhi : numTruthy (rMax (some rr)) with _ | w <;> rw [hhi] at h <;>
      dsimp only at h <;>
      (try split_ifs at h) <;>
      (try simp only [List.mem_append, List.mem_singleton] at h) <;>
      first
        | exact Or.inl h
        | (rcases h with h | rfl <;> first | exact Or.inl h | exact Or.inr rfl)
        | (rcases h with (h | rfl) | rfl <;> first | exact Or.inl h | exact Or.inr rfl)

theorem mem_violated_stepsBlock {s : String} (r : Option CRange) (n : ℕ)
    (st : ConstraintStatus) (h : s ∈ (stepsBlock r n st).violated) :
    s ∈ st.violated ∨ headChar s = some 'M' := by
  unfold stepsBlock at h
  rcases r with _ | rr
  · exact Or.inl h
  · rcases hlo : numTruthy (rMin (some rr)) with _ | v <;> rw [hlo] at h <;>
      rcases hhi : numTruthy (rMax (some rr)) with _ | w <;> rw [hhi] at h <;>
      dsimp only at h <;>
      (try split_ifs at h) <;>
      (try simp only [List.mem_append, List.mem_singleton] at h) <;>
      first
        | exact Or.inl h
        | (rcases h with h | rfl <;> first | exact Or.inl h | exact Or.inr rfl)
        | (rcases h with (h | rfl) | rfl <;> first | exact Or.inl h | exact Or.inr rfl)

theorem mem_violated_durationBlock {s : String} (r stepsR : Option CRange) (td : ℚ) (n : ℕ)
    (st : ConstraintStatus) (h : s ∈ (durationBlock r stepsR td n st).violated) :
    s ∈ st.violated ∨ headChar s = some 'M' := by
  unfold durationBlock at h
  rcases r with _ | rr
  · exact Or.inl h
  · rcases hlo : numTruthy (rMin (some rr)) with _ | v <;> rw [hlo] at h <;>
      rcases hhi : numTruthy (rMax (some rr)) with _ | w <;> rw [hhi] at h <;>
      dsimp only at h <;>
      (try split_ifs at h) <;>
      (try simp only [List.mem_append, List.mem_singleton] at h) <;>
      first
        | exact Or.inl h
        | (rcases h with h | rfl <;> first | exact Or.inl h | exact Or.inr rfl)
        | (rcases h with (h | rfl) | rfl <;> first | exact Or.inl h | exact Or.inr rfl)

theorem violated_conflictNote (st : ConstraintStatus) :
    (conflictNote st).violated = st.violated := by
  unfold conflictNote
  cases hv : st.violated <;> simp [hv]

theorem mem_violated_analyze {s : String} (ph : List TaperPhase) (sd : ℚ) (oc : OrigRanges)
    (st : ConstraintStatus) (h : s ∈ (analyzeConstraintStatus ph sd oc st).violated) :
    s ∈ st.violated ∨ headChar s = some 'M' := by
  cases ph with
  | nil => exact Or.inl h
  | cons p0 prest =>
    unfold analyzeConstraintStatus at h
    rw [violated_conflictNote] at h
    rcases mem_violated_durationBlock _ _ _ _ _ h with h | h
    · rcases mem_violated_stepsBlock _ _ _ h with h | h
      · rcases mem_violated_cycleLengthBlock _ _ _ _ h with h | h
        · rcases mem_violated_stepSizeBlock _ _ _ _ h with h | h
          · exact Or.inl h
          · exact Or.inr h
        · exact Or.inr h
      · exact Or.inr h
    · exact Or.inr h

/-- C9: the "Invalid reduction" validation branch is unreachable: no call of
`generateUnifiedTaperPhases` ever returns its violation message (for any
rendered doses), because any input with `startDose ≤ goalDose` has
`totalReduction ≤ 0 < 0.25` and is rejected by the earlier "Reduction too
small" branch, and every other violation message starts with a character
other than `'I'`. -/
theorem c9_invalid_reduction_unreachable (input : UnifiedTaperInput) (x y : ℚ) :
    invalidReductionViol x y ∉
      (generateUnifiedTaperPhases input).constraintStatus.violated := by
  obtain ⟨cur, goal, sr, cr, str, dr⟩ := input
  simp only [generateUnifiedTaperPhases]
  split_ifs with h1 h2 h3 h4
  · intro h
    have h2 := congrArg headChar (List.mem_singleton.mp h)
    rw [headChar_invalidReductionViol, headChar_startTooHighViol] at h2
    exact absurd h2 (by decide)
  · intro h
    have h2 := congrArg headChar (List.mem_singleton.mp h)
    rw [headChar_invalidReductionViol, headChar_goalNegativeViol] at h2
    exact absurd h2 (by decide)
  · intro h
    have h2 := congrArg headChar (List.mem_singleton.mp h)
    rw [headChar_invalidReductionViol, headChar_reductionSmallViol] at h2
    exact absurd h2 (by decide)
  · exact absurd (lt_of_le_of_lt h4 (by norm_num)) h3
  · intro h
    simp only [findConstrainedOptimalPath] at h
    rcases mem_violated_analyze _ _ _ _ h with h | h
    · simp at h
    · rw [headChar_invalidReductionViol] at h
      exact absurd h (by decide)

theorem findBestNext_eq_fold (combos : List Combo) (c : Constraints)
    (sd gd ideal cd td : ℚ) (sc : ℕ) (path : List Combo) :
    findBestNext combos c sd gd ideal cd td sc path =
      (combos.foldl (bestStep c sd gd ideal cd td sc path) none).map Prod.fst := rfl

/-- Full specification of the greedy selection fold: starting from
accumulator `acc`, the fold returns the first candidate (accumulator first,
then list order) attaining the strictly smallest admissible score. -/
theorem foldBest_spec (c : Constraints) (sd gd ideal cd td : ℚ) (sc : ℕ) (path : List Combo) :
    ∀ (l : List Combo) (acc : Option (Combo × ℚ)),
      (∀ b bs, acc = some (b, bs) →
        bs = comboScore c sd gd ideal cd td sc path b) →
      (l.foldl (bestStep c sd gd ideal cd td sc path) acc = acc ∧
          (∀ x ∈ l, comboAdmissible c cd td path x = true →
            ∃ b bs, acc = some (b, bs) ∧
              bs ≤ comboScore c sd gd ideal cd td sc path x)) ∨
      (∃ b l₁ l₂, l = l₁ ++ b :: l₂ ∧
        comboAdmissible c cd td path b = true ∧
        l.foldl (bestStep c sd gd ideal cd td sc path) acc =
          some (b, comboScore c sd gd ideal cd td sc path b) ∧
        (∀ b₀ bs₀, acc = some (b₀, bs₀) →
          comboScore c sd gd ideal cd td sc path b < bs₀) ∧
        (∀ x ∈ l₁, comboAdmissible c cd td path x = true →
          comboScore c sd gd ideal cd td sc path b <
            comboScore c sd gd ideal cd td sc path x) ∧
        (∀ x ∈ l₂, comboAdmissible c cd td path x = true →
          comboScore c sd gd ideal cd td sc path b ≤
            comboScore c sd gd ideal cd td sc path x)) := by
  intro l
  induction l with
  | nil => intro acc hacc; exact Or.inl ⟨rfl, by simp⟩
  | cons x xs ih =>
    intro acc hacc
    by_cases hadm : comboAdmissible c cd td path x = true
    · rcases acc with _ | ⟨b₀, bs₀⟩
      · -- accumulator empty: x becomes the new accumulator
        have hstep : bestStep c sd gd ideal cd td sc path none x =
            some (x, comboScore c sd gd ideal cd td sc path x) := by
          unfold bestStep; rw [hadm]; simp
        rcases ih (some (x, comboScore c sd gd ideal cd td sc path x))
            (by rintro b bs hb; cases hb; rfl) with ⟨heq, hmin⟩ | ⟨b, l₁, l₂, hl, hb, hfold, hlt, hfirst, hrest⟩
        · refine Or.inr ⟨x, [], xs, by simp, hadm, ?_, fun _ _ h => Option.noConfusion h, by simp, ?_⟩
          · rw [List.foldl_cons, hstep, heq]
          · intro y hy hady
            rcases hmin y hy hady with ⟨b, bs, hb, hle⟩
            cases hb; exact hle
        · refine Or.inr ⟨b, x :: l₁, l₂, by rw [hl]; rfl, hb, ?_, fun _ _ h => Option.noConfusion h, ?_, hrest⟩
          · rw [List.foldl_cons, hstep, hfold]
          · intro y hy hady
            rcases List.mem_cons.mp hy with rfl | hy
            · exact hlt _ _ rfl
            · exact hfirst y hy hady
      · -- accumulator occupied
        have hbs₀ := hacc b₀ bs₀ rfl
        by_cases hlt : comboScore c sd gd ideal cd td sc path x < bs₀
        · have hstep : bestStep c sd gd ideal cd td sc path (some (b₀, bs₀)) x =
              some (x, comboScore c sd gd ideal cd td sc path x) := by
            unfold bestStep; rw [hadm]; simp [hlt]
          rcases ih (some (x, comboScore c sd gd ideal cd td sc path x))
              (by rintro b bs hb; cases hb; rfl) with ⟨heq, hmin⟩ | ⟨b, l₁, l₂, hl, hb, hfold, hltb, hfirst, hrest⟩
          · refine Or.inr ⟨x, [], xs, by simp, hadm, ?_, ?_, by simp, ?_⟩
            · rw [List.foldl_cons, hstep, heq]
            · rintro b₁ bs₁ hb₁
              cases hb₁; exact hlt
            · intro y hy hady
              rcases hmin y hy hady with ⟨b, bs, hb, hle⟩
              cases hb; exact hle
          · refine Or.inr ⟨b, x :: l₁, l₂, by rw [hl]; rfl, hb, ?_, ?_, ?_, hrest⟩
            · rw [List.foldl_cons, hstep, hfold]
            · rintro b₁ bs₁ hb₁
              cases hb₁
              exact lt_trans (hltb _ _ rfl) hlt
            · intro y hy hady
              rcases List.mem_cons.mp hy with rfl | hy
              · exact hltb _ _ rfl
              · exact hfirst y hy hady
        · have hstep : bestStep c sd gd ideal cd td sc path (some (b₀, bs₀)) x =
              some (b₀, bs₀) := by
            unfold bestStep; rw [hadm]; simp [hlt]
          rcases ih (some (b₀, bs₀)) hacc with ⟨heq, hmin⟩ | ⟨b, l₁, l₂, hl, hb, hfold, hltb, hfirst, hrest⟩
          · refine Or.inl ⟨by rw [List.foldl_cons, hstep, heq], ?_⟩
            intro y hy hady
            rcases List.mem_cons.mp hy with rfl | hy
            · exact ⟨b₀, bs₀, rfl, not_lt.mp hlt⟩
            · exact hmin y hy hady
          · refine Or.inr ⟨b, x :: l₁, l₂, by rw [hl]; rfl, hb, ?_, hltb, ?_, hrest⟩
            · rw [List.foldl_cons, hstep, hfold]
            · intro y hy hady
              rcases List.mem_cons.mp hy with rfl | hy
              · exact lt_of_lt_of_le (hltb b₀ bs₀ rfl) (by rw [hbs₀] at hlt ⊢; exact not_lt.mp hlt)
              · exact hfirst y hy hady
    · have hstep : bestStep c sd gd ideal cd td sc path acc x = acc := by
        unfold bestStep
        rw [show comboAdmissible c cd td path x = false from by
          cases hb : comboAdmissible c cd td path x
          · rfl
          · exact absurd hb hadm]
        simp
      rcases ih acc hacc with ⟨heq, hmin⟩ | ⟨b, l₁, l₂, hl, hb, hfold, hltb, hfirst, hrest⟩
      · refine Or.inl ⟨by rw [List.foldl_cons, hstep, heq], ?_⟩
        intro y hy hady
        rcases List.mem_cons.mp hy with rfl | hy
        · exact absurd hady hadm
        · exact hmin y hy hady
      · refine Or.inr ⟨b, x :: l₁, l₂, by rw [hl]; rfl, hb, ?_, hltb, ?_, hrest⟩
        · rw [List.foldl_cons, hstep, hfold]
        · intro y hy hady
          rcases List.mem_cons.mp hy with rfl | hy
          · exact absurd hady hadm
          · exact hfirst y hy hady

/-- C8: determinism.  `generateUnifiedTaperPhases` is a pure function of its
input (two calls with equal inputs give equal results), and the greedy
selection breaks ties by list order: when `findBestNext` returns a candidate,
that candidate is admissible, attains the minimum admissible score over the
whole (descending-dose sorted) combination list, and every admissible
candidate occurring strictly earlier in the list has a strictly larger score
(so exact ties are won by the earlier, higher-dose entry). -/
theorem c8_determinism_tie_break :
    (∀ input₁ input₂ : UnifiedTaperInput, input₁ = input₂ →
      generateUnifiedTaperPhases input₁ = generateUnifiedTaperPhases input₂) ∧
    (∀ (combos : List Combo) (c : Constraints) (sd gd ideal cd td : ℚ) (sc : ℕ)
        (path : List Combo) (b : Combo),
      findBestNext combos c sd gd ideal cd td sc path = some b →
      comboAdmissible c cd td path b = true ∧
      (∀ x ∈ combos, comboAdmissible c cd td path x = true →
        comboScore c sd gd ideal cd td sc path b ≤
          comboScore c sd gd ideal cd td sc path x) ∧
      (∃ l₁ l₂, combos = l₁ ++ b :: l₂ ∧
        ∀ x ∈ l₁, comboAdmissible c cd td path x = true →
          comboScore c sd gd ideal cd td sc path b <
            comboScore c sd gd ideal cd td sc path x)) := by
  constructor
  · intro input₁ input₂ h; rw [h]
  · intro combos c sd gd ideal cd td sc path b hfind
    rw [findBestNext_eq_fold] at hfind
    rcases foldBest_spec c sd gd ideal cd td sc path combos none (fun _ _ h => Option.noConfusion h) with
      ⟨heq, _⟩ | ⟨b', l₁, l₂, hl, hb', hfold, _, hfirst, hrest⟩
    · rw [heq] at hfind; exact absurd hfind (by simp)
    · rw [hfold] at hfind
      have hb2 : b' = b := by simpa using hfind
      subst hb2
      refine ⟨hb', ?_, l₁, l₂, hl, hfirst⟩
      intro x hx hadx
      rw [hl] at hx
      rcases List.mem_append.mp hx with hx | hx
      · exact le_of_lt (hfirst x hx hadx)
      · rcases List.mem_cons.mp hx with rfl | hx
        · exact le_refl _
        · exact hrest x hx hadx

/-- Witness for `c8_determinism_tie_break`: at a concrete two-element
combination list whose elements tie exactly, the selection returns the first,
and the theorem's conclusions hold there. -/
theorem c8_determinism_tie_break_witness :
    let c : Constraints := ⟨1/100, 1, 7, 28, 3, 15, 0, 365⟩
    let x1 : Combo := ⟨1, 0, 1, 1/2, 14⟩
    let x2 : Combo := ⟨0, 2, 1, 1/2, 14⟩
    findBestNext [x1, x2] c 1 0 (1/9) 1 0 0 [] = some x1 ∧
    comboAdmissible c 1 0 [] x1 = true :=
  ⟨by with_unfolding_all decide,
    (c8_determinism_tie_break.2 [⟨1, 0, 1, 1/2, 14⟩, ⟨0, 2, 1, 1/2, 14⟩]
      ⟨1/100, 1, 7, 28, 3, 15, 0, 365⟩ 1 0 (1/9) 1 0 0 [] ⟨1, 0, 1, 1/2, 14⟩
      (by with_unfolding_all decide)).1⟩

theorem Stuffing.refl : ∀ l : List Combo, Stuffing l l
  | [] => Stuffing.stop []
  | _ :: t => Stuffing.keep (Stuffing.refl t)

theorem Stuffing.of_take_drop : ∀ (p q : List Combo), Stuffing (p ++ q) p
  | [], q => Stuffing.stop q
  | _ :: p, q => Stuffing.keep (Stuffing.of_take_drop p q)

theorem StuffExact.append_stuffing :
    ∀ {p t rest r : List Combo}, StuffExact p t → Stuffing rest r →
      Stuffing (p ++ rest) (t ++ r) := by
  intro p t rest r hp hr
  induction hp with
  | nil => exact hr
  | keep _ ih => exact Stuffing.keep ih
  | dup hd _ ih => exact Stuffing.dup hd ih

theorem StuffExact.length_le {p t : List Combo} (h : StuffExact p t) :
    p.length ≤ t.length := by
  induction h with
  | nil => exact Nat.le_refl _
  | keep _ ih => exact Nat.succ_le_succ ih
  | dup _ _ ih => simp only [List.length_cons]; omega

theorem mem_bestMatching (pc : ℚ) : ∀ (ms : List Combo) (m0 : Combo),
    bestMatching pc m0 ms = m0 ∨ bestMatching pc m0 ms ∈ ms := by
  intro ms
  induction ms with
  | nil => intro m0; exact Or.inl rfl
  | cons x xs ih =>
    intro m0
    unfold bestMatching
    simp only [List.foldl_cons]
    by_cases h : |x.cycleLength - pc| < |m0.cycleLength - pc|
    · rcases ih x with h2 | h2
      · rw [show bestMatching pc x xs = List.foldl _ x xs from rfl] at h2
        right; rw [if_pos h]; rw [h2]; exact List.mem_cons_self x xs
      · right; rw [if_pos h]
        exact List.mem_cons_of_mem x h2
    · rcases ih m0 with h2 | h2
      · rw [show bestMatching pc m0 xs = List.foldl _ m0 xs from rfl] at h2
        left; rw [if_neg h]; exact h2
      · right; rw [if_neg h]
        exact List.mem_cons_of_mem x h2

theorem mem_matchingCombos_tol {combos : List Combo} {p x : Combo}
    (h : x ∈ matchingCombos combos p) :
    |x.avgDailyDose - p.avgDailyDose| ≤ 1/1000 := by
  unfold matchingCombos at h
  have := List.of_mem_filter h
  exact of_decide_eq_true this

theorem mem_matchingCombos_mem {combos : List Combo} {p x : Combo}
    (h : x ∈ matchingCombos combos p) : x ∈ combos :=
  List.mem_of_mem_filter h

theorem bestMatching_mem_matching {combos : List Combo} {p m0 : Combo} {ms : List Combo}
    (hM : matchingCombos combos p = m0 :: ms) :
    bestMatching p.cycleLength m0 ms ∈ matchingCombos combos p := by
  rw [hM]
  rcases mem_bestMatching p.cycleLength ms m0 with h | h
  · rw [h]; exact List.mem_cons_self _ _
  · exact List.mem_cons_of_mem _ h

theorem durWalk_stuff (combos : List Combo) (c : Constraints) (mep td : ℚ) :
    ∀ (l : List Combo) (s : DurState),
      ∃ pre left t,
        l = pre ++ left ∧
        StuffExact pre t ∧
        (∀ y ∈ t, y ∈ pre ∨ y ∈ combos) ∧
        (durWalk combos c mep td l s).newPath = s.newPath ++ t ∧
        (durWalk combos c mep td l s).extraPhasesUsed + pre.length =
          s.extraPhasesUsed + t.length := by
  intro l
  induction l with
  | nil =>
    intro s
    exact ⟨[], [], [], rfl, StuffExact.nil, by simp, by simp [durWalk], by simp [durWalk]⟩
  | cons a rest ih =>
    intro s
    unfold durWalk
    split
    · -- step budget available
      simp only []
      by_cases hRep : ((s.extraPhasesUsed : ℚ) < mep ∧ rest ≠ [] ∧
          ((s.newStepCount + 1 : ℕ) : ℚ) < c.maxSteps ∧
          s.newTotalDuration + a.cycleLength + a.cycleLength ≤ c.maxDuration)
      · simp only [if_pos hRep]
        rcases hM : matchingCombos combos a with _ | ⟨m0, ms⟩
        · simp only [hM]
          by_cases hBreak : td ≤ s.newTotalDuration + a.cycleLength
          · simp only [if_pos hBreak]
            exact ⟨[a], rest, [a], rfl, StuffExact.keep StuffExact.nil,
              by simp, by simp, by simp⟩
          · simp only [if_neg hBreak]
            rcases ih { newPath := s.newPath ++ [a],
                        newTotalDuration := s.newTotalDuration + a.cycleLength,
                        newStepCount := s.newStepCount + 1,
                        extraPhasesUsed := s.extraPhasesUsed } with
              ⟨pre, left, t, hl, hse, hmem, hpath, hextra⟩
            refine ⟨a :: pre, left, a :: t, by rw [hl]; rfl, StuffExact.keep hse,
              ?_, ?_, ?_⟩
            · intro y hy
              rcases List.mem_cons.mp hy with rfl | hy
              · exact Or.inl (List.mem_cons_self _ _)
              · rcases hmem y hy with h | h
                · exact Or.inl (List.mem_cons_of_mem _ h)
                · exact Or.inr h
            · rw [hpath]; simp
            · simp only [List.length_cons] at hextra ⊢
              omega
        · simp only [hM]
          have hBestTol : |(bestMatching a.cycleLength m0 ms).avgDailyDose -
              a.avgDailyDose| ≤ 1/1000 :=
            mem_matchingCombos_tol (bestMatching_mem_matching hM)
          have hBestMem : bestMatching a.cycleLength m0 ms ∈ combos :=
            mem_matchingCombos_mem (bestMatching_mem_matching hM)
          by_cases hBreak : td ≤ s.newTotalDuration + a.cycleLength +
              (bestMatching a.cycleLength m0 ms).cycleLength
          · simp only [if_pos hBreak]
            refine ⟨[a], rest, [a, bestMatching a.cycleLength m0 ms], rfl,
              StuffExact.dup hBestTol StuffExact.nil, ?_, by simp, by simp⟩
            intro y hy
            rcases List.mem_cons.mp hy with rfl | hy
            · exact Or.inl (List.mem_cons_self _ _)
            · rcases List.mem_cons.mp hy with rfl | hy
              · exact Or.inr hBestMem
              · cases hy
          · simp only [if_neg hBreak]
            rcases ih { newPath := s.newPath ++ [a] ++ [bestMatching a.cycleLength m0 ms],
                        newTotalDuration := s.newTotalDuration + a.cycleLength +
                          (bestMatching a.cycleLength m0 ms).cycleLength,
                        newStepCount := s.newStepCount + 1 + 1,
                        extraPhasesUsed := s.extraPhasesUsed + 1 } with
              ⟨pre, left, t, hl, hse, hmem, hpath, hextra⟩
            refine ⟨a :: pre, left, a :: bestMatching a.cycleLength m0 ms :: t,
              by rw [hl]; rfl, StuffExact.dup hBestTol hse, ?_, ?_, ?_⟩
            · intro y hy
              rcases List.mem_cons.mp hy with rfl | hy
              · exact Or.inl (List.mem_cons_self _ _)
              · rcases List.mem_cons.mp hy with rfl | hy
                · exact Or.inr hBestMem
                · rcases hmem y hy with h | h
                  · exact Or.inl (List.mem_cons_of_mem _ h)
                  · exact Or.inr h
            · rw [hpath]; simp
            · simp only [List.length_cons] at hextra ⊢
              omega
      · simp only [if_neg hRep]
        by_cases hBreak : td ≤ s.newTotalDuration + a.cycleLength
        · simp only [if_pos hBreak]
          exact ⟨[a], rest, [a], rfl, StuffExact.keep StuffExact.nil,
            by simp, by simp, by simp⟩
        · simp only [if_neg hBreak]
          rcases ih { newPath := s.newPath ++ [a],
                      newTotalDuration := s.newTotalDuration + a.cycleLength,
                      newStepCount := s.newStepCount + 1,
                      extraPhasesUsed := s.extraPhasesUsed } with
            ⟨pre, left, t, hl, hse, hmem, hpath, hextra⟩
          refine ⟨a :: pre, left, a :: t, by rw [hl]; rfl, StuffExact.keep hse,
            ?_, ?_, ?_⟩
          · intro y hy
            rcases List.mem_cons.mp hy with rfl | hy
            · exact Or.inl (List.mem_cons_self _ _)
            · rcases hmem y hy with h | h
              · exact Or.inl (List.mem_cons_of_mem _ h)
              · exact Or.inr h
          · rw [hpath]; simp
          · simp only [List.length_cons] at hextra ⊢
            omega
    · -- out of step budget: nothing walked
      exact ⟨[], a :: rest, [], rfl, StuffExact.nil, by simp, by simp, by simp⟩

theorem appendRemaining_spec (c : Constraints) :
    ∀ (l : List Combo) (s : DurState),
      ∃ p q, l = p ++ q ∧ (appendRemaining c l s).newPath = s.newPath ++ p := by
  intro l
  induction l with
  | nil => intro s; exact ⟨[], [], rfl, by simp [appendRemaining]⟩
  | cons a rest ih =>
    intro s
    unfold appendRemaining
    split
    · exact ⟨[], a :: rest, rfl, by simp⟩
    · rcases ih { s with newPath := s.newPath ++ [a],
                         newTotalDuration := s.newTotalDuration + a.cycleLength,
                         newStepCount := s.newStepCount + 1 } with ⟨p, q, hl, hpath⟩
      exact ⟨a :: p, q, by rw [hl]; rfl, by rw [hpath]; simp⟩

theorem durationReconcile_core (combos : List Combo) (c : Constraints) (mep td : ℚ)
    (path : List Combo) :
    Stuffing path
      ((appendRemaining c
        (path.drop ((durWalk combos c mep td path ⟨[], 0, 0, 0⟩).newPath.length -
          (durWalk combos c mep td path ⟨[], 0, 0, 0⟩).extraPhasesUsed))
        (durWalk combos c mep td path ⟨[], 0, 0, 0⟩)).newPath) := by
  rcases durWalk_stuff combos c mep td path ⟨[], 0, 0, 0⟩ with
    ⟨pre, left, t, hl, hse, _, hpath, hextra⟩
  rcases appendRemaining_spec c
      (path.drop ((durWalk combos c mep td path ⟨[], 0, 0, 0⟩).newPath.length -
        (durWalk combos c mep td path ⟨[], 0, 0, 0⟩).extraPhasesUsed))
      (durWalk combos c mep td path ⟨[], 0, 0, 0⟩) with ⟨p, q, hrem, hpath2⟩
  have hW : (durWalk combos c mep td path ⟨[], 0, 0, 0⟩).newPath = t := by rw [hpath]; rfl
  have hextra' : (durWalk combos c mep td path ⟨[], 0, 0, 0⟩).extraPhasesUsed +
      pre.length = 0 + t.length := hextra
  have hle := hse.length_le
  have hidx : (durWalk combos c mep td path ⟨[], 0, 0, 0⟩).newPath.length -
      (durWalk combos c mep td path ⟨[], 0, 0, 0⟩).extraPhasesUsed = pre.length := by
    rw [hW]; omega
  rw [hidx, hl, List.drop_left] at hrem
  rw [hpath2, hW, hl, hrem]
  exact StuffExact.append_stuffing hse (Stuffing.of_take_drop p q)

theorem durationReconcile_stuff (combos : List Combo) (c : Constraints)
    (st : List Combo × ℚ × ℕ) :
    Stuffing st.1 (durationReconcile combos c st).1 := by
  unfold durationReconcile
  simp only []
  split
  · split
    · exact durationReconcile_core combos c _ c.minDuration st.1
    · exact Stuffing.refl st.1
  · exact Stuffing.refl st.1

/-- C7 (amended): whether or not it triggers, the duration reconciler returns
a plateau-stuffing of a prefix of the incoming path: the kept phases appear in
their original relative order and with their dose values unchanged, each
optionally followed by one inserted stabilization repeat whose average daily
dose matches the kept phase within 0.001; the tail of the original path may be
dropped when re-appending it would exceed `maxDuration` or `maxSteps`. -/
theorem c7_duration_reconciler_stuffing (combos : List Combo) (c : Constraints)
    (st : List Combo × ℚ × ℕ) :
    Stuffing st.1 (durationReconcile combos c st).1 :=
  durationReconcile_stuff combos c st

theorem lastDose_append (d : ℚ) (l : List Combo) (x : Combo) :
    lastDose d (l ++ [x]) = x.avgDailyDose := by
  induction l generalizing d with
  | nil => rfl
  | cons a rest ih => exact ih a.avgDailyDose

theorem comboAdmissible_lt {c : Constraints} {cd td : ℚ} {path : List Combo} {b : Combo}
    (h : comboAdmissible c cd td path b = true) : b.avgDailyDose < cd := by
  simp only [comboAdmissible, decide_eq_true_eq, not_or] at h
  linarith [h.1.1]

theorem findBestNext_admissible {combos : List Combo} {c : Constraints}
    {sd gd ideal cd td : ℚ} {sc : ℕ} {path : List Combo} {b : Combo}
    (h : findBestNext combos c sd gd ideal cd td sc path = some b) :
    comboAdmissible c cd td path b = true := by
  rw [findBestNext_eq_fold] at h
  rcases foldBest_spec c sd gd ideal cd td sc path combos none
      (fun _ _ hx => Option.noConfusion hx) with
    ⟨heq, _⟩ | ⟨b', l₁, l₂, _, hb', hfold, _, _, _⟩
  · rw [heq] at h; exact absurd h (by simp)
  · rw [hfold] at h
    have hb2 : b' = b := by simpa using h
    subst hb2
    exact hb'

theorem StrictDesc_append {d : ℚ} {l : List Combo} {x : Combo}
    (hs : StrictDesc d l) (hx : x.avgDailyDose < lastDose d l) :
    StrictDesc d (l ++ [x]) := by
  induction l generalizing d with
  | nil => exact ⟨hx, trivial⟩
  | cons a rest ih => exact ⟨hs.1, ih hs.2 hx⟩

theorem greedyLoop_desc (combos : List Combo) (c : Constraints) (sd gd isz : ℚ) :
    ∀ (fuel : ℕ) (s : GreedyState),
      StrictDesc sd s.path → s.currentDose = lastDose sd s.path →
      StrictDesc sd (greedyLoop combos c sd gd isz fuel s).path ∧
      (greedyLoop combos c sd gd isz fuel s).currentDose =
        lastDose sd (greedyLoop combos c sd gd isz fuel s).path := by
  intro fuel
  induction fuel with
  | zero => intro s h1 h2; exact ⟨h1, h2⟩
  | succ n ih =>
    intro s h1 h2
    unfold greedyLoop
    split
    · rcases hF : findBestNext combos c sd gd isz s.currentDose s.totalDuration
          s.stepCount s.path with _ | b
      · exact ⟨h1, h2⟩
      · have hlt : b.avgDailyDose < s.currentDose :=
          comboAdmissible_lt (findBestNext_admissible hF)
        rw [h2] at hlt
        exact ih _ (StrictDesc_append h1 hlt) (lastDose_append sd s.path b).symm
    · exact ⟨h1, h2⟩

theorem StrictDesc.head_lt {d : ℚ} {l : List Combo} (h : StrictDesc d l) :
    ∀ x ∈ l.head?, x.avgDailyDose < d := by
  cases l with
  | nil => intro x hx; simp at hx
  | cons a rest =>
    intro x hx
    simp only [List.head?_cons, Option.mem_def, Option.some.injEq] at hx
    rw [← hx]
    exact h.1

theorem Stuffing.tolChain_of_strict {l r : List Combo} (h : Stuffing l r) :
    ∀ {d : ℚ}, StrictDesc d l →
      TolChain r ∧ ∀ x ∈ r.head?, x.avgDailyDose < d := by
  induction h with
  | stop l => intro d _; exact ⟨List.chain'_nil, by intro x hx; simp at hx⟩
  | @keep a t r _ ih =>
    intro d hs
    rcases ih hs.2 with ⟨hc, hh⟩
    refine ⟨?_, ?_⟩
    · unfold TolChain at hc ⊢
      rw [List.chain'_cons']
      exact ⟨fun y hy => le_of_lt (lt_of_lt_of_le (hh y hy) (by linarith)), hc⟩
    · intro x hx
      simp only [List.head?_cons, Option.mem_def, Option.some.injEq] at hx
      rw [← hx]; exact hs.1
  | @dup a b t r habs _ ih =>
    intro d hs
    rcases ih hs.2 with ⟨hc, hh⟩
    have hab := abs_le.mp habs
    refine ⟨?_, ?_⟩
    · unfold TolChain at hc ⊢
      rw [List.chain'_cons', List.chain'_cons']
      refine ⟨?_, ?_, hc⟩
      · intro y hy
        simp only [List.head?_cons, Option.mem_def, Option.some.injEq] at hy
        rw [← hy]
        linarith [hab.2]
      · intro y hy
        have := hh y hy
        linarith [hab.1]
    · intro x hx
      simp only [List.head?_cons, Option.mem_def, Option.some.injEq] at hx
      rw [← hx]; exact hs.1

theorem durationReconcile_chain {combos : List Combo} {c : Constraints}
    {st : List Combo × ℚ × ℕ} {sd : ℚ} (hs : StrictDesc sd st.1) :
    TolChain (durationReconcile combos c st).1 ∧
    HeadLe sd (durationReconcile combos c st).1 := by
  rcases (durationReconcile_stuff combos c st).tolChain_of_strict hs with ⟨hc, hh⟩
  exact ⟨hc, fun x hx => le_of_lt (hh x hx)⟩


theorem largestSplit_fold_lt (c : Constraints) :
    ∀ (l : List Combo) (bi : Option ℕ) (bs pd : ℚ) (i : ℕ),
      (∀ j, bi = some j → j < i) →
      ∀ j, (l.foldl
          (fun (acc : Option ℕ × ℚ × ℚ × ℕ) p =>
            let bestIdx := acc.1
            let bestSize := acc.2.1
            let prevDose := acc.2.2.1
            let i := acc.2.2.2
            let stepSize := prevDose - p.avgDailyDose
            let next :=
              if bestSize < stepSize ∧ c.minStepSize * 2 < stepSize then (some i, stepSize)
              else (bestIdx, bestSize)
            (next.1, next.2, p.avgDailyDose, i + 1))
          (bi, bs, pd, i)).1 = some j → j < i + l.length := by
  intro l
  induction l with
  | nil => intro bi bs pd i hinv j hj; simpa using hinv j hj
  | cons a rest ih =>
    intro bi bs pd i hinv j hj
    simp only [List.foldl_cons] at hj
    by_cases hC : bs < pd - a.avgDailyDose ∧ c.minStepSize * 2 < pd - a.avgDailyDose
    · rw [if_pos hC] at hj
      have := ih (some i) (pd - a.avgDailyDose) a.avgDailyDose (i + 1)
        (fun j' hj' => by
          have : i = j' := by simpa using hj'
          omega) j hj
      simp only [List.length_cons]
      omega
    · rw [if_neg hC] at hj
      have := ih bi bs a.avgDailyDose (i + 1)
        (fun j' hj' => Nat.lt_succ_of_lt (hinv j' hj')) j hj
      simp only [List.length_cons]
      omega

theorem largestSplit_lt_length {c : Constraints} {sd : ℚ} {path : List Combo} {li : ℕ}
    (h : largestSplit c sd path = some li) : li < path.length := by
  unfold largestSplit at h
  have := largestSplit_fold_lt c path none 0 sd 0
    (fun j hj => Option.noConfusion hj) li h
  simpa using this

theorem fbi_fold_good (c : Constraints) (pd cd t : ℚ) :
    ∀ (l : List Combo) (acc : Option (Combo × ℚ)),
      (∀ q : Combo × ℚ, acc = some q →
        c.minStepSize ≤ pd - q.1.avgDailyDose ∧ pd - q.1.avgDailyDose ≤ c.maxStepSize ∧
        c.minStepSize ≤ q.1.avgDailyDose - cd ∧ q.1.avgDailyDose - cd ≤ c.maxStepSize) →
      ∀ q : Combo × ℚ,
        (l.foldl
          (fun (best : Option (Combo × ℚ)) combo =>
            let diff := |combo.avgDailyDose - t|
            let stepSize1 := pd - combo.avgDailyDose
            let stepSize2 := combo.avgDailyDose - cd
            let diffImproves :=
              match best with | none => true | some (_, bd) => decide (diff < bd)
            if c.minStepSize ≤ stepSize1 ∧ stepSize1 ≤ c.maxStepSize ∧
                c.minStepSize ≤ stepSize2 ∧ stepSize2 ≤ c.maxStepSize ∧
                c.minCycleLength ≤ combo.cycleLength ∧
                combo.cycleLength ≤ c.maxCycleLength ∧ diffImproves = true then
              some (combo, diff)
            else best)
          acc) = some q →
        c.minStepSize ≤ pd - q.1.avgDailyDose ∧ pd - q.1.avgDailyDose ≤ c.maxStepSize ∧
        c.minStepSize ≤ q.1.avgDailyDose - cd ∧ q.1.avgDailyDose - cd ≤ c.maxStepSize := by
  intro l
  induction l with
  | nil => intro acc hacc; exact hacc
  | cons a rest ih =>
    intro acc hacc
    simp only [List.foldl_cons]
    apply ih
    intro q hq
    split at hq
    · have hqa : (a, |a.avgDailyDose - t|) = q := Option.some.inj hq
      subst hqa
      rename_i hC
      exact ⟨hC.1, hC.2.1, hC.2.2.1, hC.2.2.2.1⟩
    · exact hacc q hq

theorem findBestIntermediate_accept {combos : List Combo} {c : Constraints}
    {pd cd t : ℚ} {b : Combo}
    (h : findBestIntermediate combos c pd cd t = some b) :
    c.minStepSize ≤ pd - b.avgDailyDose ∧ pd - b.avgDailyDose ≤ c.maxStepSize ∧
    c.minStepSize ≤ b.avgDailyDose - cd ∧ b.avgDailyDose - cd ≤ c.maxStepSize := by
  unfold findBestIntermediate at h
  rcases Option.map_eq_some'.mp h with ⟨⟨b', d'⟩, hfold, hfst⟩
  have := fbi_fold_good c pd cd t combos none
    (fun q hq => Option.noConfusion hq) (b', d') hfold
  rw [show b' = b from hfst] at this
  exact this

theorem TolChain_splice :
    ∀ (li : ℕ) (l : List Combo) (x : Combo) (d : ℚ),
      TolChain l → li < l.length →
      (l.getD li default).avgDailyDose ≤ x.avgDailyDose →
      x.avgDailyDose ≤ (if li = 0 then d else (l.getD (li - 1) default).avgDailyDose) →
      TolChain (l.take li ++ x :: l.drop li) ∧
      ((l.take li ++ x :: l.drop li).head? = l.head? ∨
        (x.avgDailyDose ≤ d ∧ (l.take li ++ x :: l.drop li).head? = some x)) := by
  intro li
  induction li with
  | zero =>
    intro l x d hc hlen hge hle
    simp only [List.take_zero, List.drop_zero, List.nil_append]
    constructor
    · unfold TolChain at hc ⊢
      rw [List.chain'_cons']
      refine ⟨?_, hc⟩
      intro y hy
      cases l with
      | nil => simp at hy
      | cons a rest =>
        simp only [List.head?_cons, Option.mem_def, Option.some.injEq] at hy
        rw [← hy]
        have : a.avgDailyDose ≤ x.avgDailyDose := hge
        linarith
    · right
      exact ⟨by simpa using hle, rfl⟩
  | succ k ih =>
    intro l x d hc hlen hge hle
    cases l with
    | nil => simp at hlen
    | cons a rest =>
      rw [if_neg (Nat.succ_ne_zero k)] at hle
      have hc' : TolChain rest := (List.chain'_cons'.mp hc).2
      have hlen' : k < rest.length := by
        simp only [List.length_cons] at hlen; omega
      have hge' : (rest.getD k default).avgDailyDose ≤ x.avgDailyDose := by
        rw [List.getD_cons_succ] at hge; exact hge
      have hle' : x.avgDailyDose ≤
          (if k = 0 then a.avgDailyDose else (rest.getD (k - 1) default).avgDailyDose) := by
        rcases k with _ | m
        · rw [if_pos rfl]
          simpa using hle
        · rw [if_neg (Nat.succ_ne_zero m)]
          simp only [Nat.add_sub_cancel] at hle ⊢
          rw [List.getD_cons_succ] at hle
          exact hle
      rcases ih rest x a.avgDailyDose hc' hlen' hge' hle' with ⟨hcr, hh⟩
      rw [List.take_succ_cons, List.drop_succ_cons, List.cons_append]
      constructor
      · unfold TolChain at hcr ⊢
        rw [List.chain'_cons']
        refine ⟨?_, hcr⟩
        intro y hy
        rcases hh with hh | ⟨hxa, hh⟩
        · rw [hh] at hy
          exact (List.chain'_cons'.mp hc).1 y hy
        · rw [hh] at hy
          simp only [Option.mem_def, Option.some.injEq] at hy
          rw [← hy]
          linarith
      · left; rfl

theorem stepCountLoop_inv (combos : List Combo) (c : Constraints) (sd ts : ℚ)
    (hmin : 0 ≤ c.minStepSize) :
    ∀ (fuel : ℕ) (st : List Combo × ℚ × ℕ),
      TolChain st.1 → HeadLe sd st.1 →
      TolChain (stepCountLoop combos c sd ts fuel st).1 ∧
      HeadLe sd (stepCountLoop combos c sd ts fuel st).1 := by
  intro fuel
  induction fuel with
  | zero => intro st h1 h2; exact ⟨h1, h2⟩
  | succ n ih =>
    intro st h1 h2
    obtain ⟨path, td, sc⟩ := st
    unfold stepCountLoop
    split
    · simp only []
      rcases hLS : largestSplit c sd path with _ | li
      · exact ⟨h1, h2⟩
      · simp only []
        rcases hFB : findBestIntermediate combos c
            (if li = 0 then sd else (path.getD (li - 1) default).avgDailyDose)
            (path.getD li default).avgDailyDose
            (((if li = 0 then sd else (path.getD (li - 1) default).avgDailyDose) +
              (path.getD li default).avgDailyDose) / 2) with _ | b
        · exact ⟨h1, h2⟩
        · simp only []
          split
          · have hlen : li < path.length := largestSplit_lt_length hLS
            have hacc := findBestIntermediate_accept hFB
            have hge : (path.getD li default).avgDailyDose ≤ b.avgDailyDose := by
              have := hacc.2.2.1; linarith
            have hle : b.avgDailyDose ≤
                (if li = 0 then sd else (path.getD (li - 1) default).avgDailyDose) := by
              have := hacc.1; linarith
            rcases TolChain_splice li path b sd h1 hlen hge hle with ⟨hc', hh⟩
            refine ih (path.take li ++ b :: path.drop li,
              td + b.cycleLength, sc + 1) hc' ?_
            rcases hh with hh | ⟨hxa, hh⟩
            · intro y hy; rw [hh] at hy; exact h2 y hy
            · intro y hy; rw [hh] at hy
              simp only [Option.mem_def, Option.some.injEq] at hy
              rw [← hy]; exact hxa
          · exact ⟨h1, h2⟩
    · exact ⟨h1, h2⟩

theorem stepCountReconcile_inv {combos : List Combo} {c : Constraints} {sd : ℚ}
    {st : List Combo × ℚ × ℕ} (hmin : 0 ≤ c.minStepSize)
    (h1 : TolChain st.1) (h2 : HeadLe sd st.1) :
    TolChain (stepCountReconcile combos c sd st).1 ∧
    HeadLe sd (stepCountReconcile combos c sd st).1 := by
  unfold stepCountReconcile
  split
  · exact stepCountLoop_inv combos c sd _ hmin _ st h1 h2
  · exact ⟨h1, h2⟩


theorem chain_zip (R : Combo → Combo → Prop) :
    ∀ (ns : List ℕ) (l : List Combo), List.Chain' R l →
      List.Chain' (fun a b : ℕ × Combo => R a.2 b.2) (ns.zip l) := by
  intro ns
  induction ns with
  | nil => intro l _; exact List.chain'_nil
  | cons n ns ih =>
    intro l h
    cases l with
    | nil => exact List.chain'_nil
    | cons x l' =>
      rw [List.zip_cons_cons, List.chain'_cons']
      refine ⟨?_, ih l' (List.chain'_cons'.mp h).2⟩
      intro y hy
      cases ns with
      | nil => simp at hy
      | cons n2 ns2 =>
        cases l' with
        | nil => simp at hy
        | cons x2 l2 =>
          rw [List.zip_cons_cons] at hy
          simp only [List.head?_cons, Option.mem_def, Option.some.injEq] at hy
          rw [← hy]
          exact (List.chain'_cons'.mp h).1 x2 (by simp)

theorem toPhases_chain {l : List Combo} (h : TolChain l) : TolChainP (toPhases l) := by
  unfold toPhases TolChainP
  rw [List.chain'_map]
  exact (chain_zip _ (List.range l.length) l h).imp
    (fun a b hab => by rcases a with ⟨i, x⟩; rcases b with ⟨j, y⟩; exact hab)

theorem toPhases_head {l : List Combo} :
    ∀ p ∈ (toPhases l).head?, ∃ x ∈ l.head?, p.avgDailyDose = x.avgDailyDose := by
  cases l with
  | nil => intro p hp; simp [toPhases] at hp
  | cons x rest =>
    intro p hp
    refine ⟨x, by simp, ?_⟩
    unfold toPhases at hp
    rw [List.length_cons, List.range_succ_eq_map, List.zip_cons_cons] at hp
    simp only [List.map_cons, List.head?_cons, Option.mem_def, Option.some.injEq] at hp
    rw [← hp]

theorem pipeline_chain (combinations : List Combo) (c : Constraints) (sd : ℚ)
    (g : GreedyState) (hg : StrictDesc sd g.path) (hmin : 0 ≤ c.minStepSize) :
    TolChain (stepCountReconcile combinations c sd
      (durationReconcile combinations c (g.path, g.totalDuration, g.stepCount))).1 ∧
    HeadLe sd (stepCountReconcile combinations c sd
      (durationReconcile combinations c (g.path, g.totalDuration, g.stepCount))).1 := by
  have hd := @durationReconcile_chain combinations c
    (g.path, g.totalDuration, g.stepCount) sd hg
  exact stepCountReconcile_inv hmin hd.1 hd.2

theorem findPath_chain (combinations : List Combo) (sd gd : ℚ) (c : Constraints)
    (oc : OrigRanges) (hmin : 0 ≤ c.minStepSize) :
    TolChainP (findConstrainedOptimalPath combinations sd gd c oc).phases ∧
    ∀ p ∈ (findConstrainedOptimalPath combinations sd gd c oc).phases.head?,
      p.avgDailyDose ≤ sd := by
  have hg := greedyLoop_desc combinations c sd gd
    ((sd - gd) / ((c.minSteps + c.maxSteps) / 2)) (loopCount c.maxSteps + 1)
    ⟨[], sd, 0, 0⟩ trivial rfl
  have hp := pipeline_chain combinations c sd
    (greedyLoop combinations c sd gd ((sd - gd) / ((c.minSteps + c.maxSteps) / 2))
      (loopCount c.maxSteps + 1) ⟨[], sd, 0, 0⟩) hg.1 hmin
  constructor
  · exact toPhases_chain hp.1
  · intro p hpm
    rcases toPhases_head p hpm with ⟨x, hx, hpx⟩
    rw [hpx]
    exact hp.2 x hx

/-- Witness for `c10_zero_bounds_as_absent`: a concrete pair of inputs, one
with an explicit `stepsRange.min = 0` and one with that bound absent, whose
zero-erasures agree, so the theorem yields equal results for them. -/
theorem c10_zero_bounds_as_absent_witness :
    zeroErase ⟨1, 0, none, none, some ⟨some 0, none⟩, none⟩ =
      zeroErase ⟨1, 0, none, none, some ⟨none, none⟩, none⟩ ∧
    generateUnifiedTaperPhases ⟨1, 0, none, none, some ⟨some 0, none⟩, none⟩ =
      generateUnifiedTaperPhases ⟨1, 0, none, none, some ⟨none, none⟩, none⟩ :=
  ⟨by with_unfolding_all decide,
    c10_zero_bounds_as_absent _ _ (by with_unfolding_all decide)⟩

end TaperTracker
